import Mathlib

/-!
Verification of the discrete-event queueing simulator
(`events.py`, `network.py`, `stats.py`, `main.py`).

Modelling choices (shallow embedding):
* Simulated time and all sampled values are rationals (`ℚ`); the Python
  floats only carry order/arithmetic structure relevant to the claims.
* Randomness is an explicit stream `rng : Nat → ℚ` together with a cursor
  `rngIdx` in the simulation state.  Each call of `random.expovariate`
  consumes one stream value (the sampled interval/duration; in Python such
  samples are strictly positive for positive rates, which theorems take as
  a hypothesis where needed), and each call of `random.choices` consumes
  one stream value `u`, interpreted through the cumulative weights exactly
  as `bisect_right(cum_weights, u * total, 0, len - 1)` does.
* Python's in-place mutation of a shared `Request` object (the same object
  sits in the event payload and in the server's `current_request`) is
  rendered functionally by updating every holder of the request at the
  mutation point.
* `heapq` pops a least element under `Event.__lt__`; among equal-time
  events the popped one depends on the heap's internal layout.  `popMin`
  picks the leftmost minimal-time element; no theorem below other than the
  one about `Event.lt` itself depends on the tie order.
-/

set_option linter.unusedVariables false

namespace QueueNet

/-- `Request` dataclass from `network.py`.  The service fields are `None`
until service begins; they are modelled as `Option ℚ`. -/
structure Request where
  id : Nat
  arrival_time : ℚ
  service_start_time : Option ℚ
  service_duration : Option ℚ
deriving DecidableEq, Repr

instance : Inhabited Request := ⟨⟨0, 0, none, none⟩⟩

/-- `Server` from `network.py`: identifier, rate, capacity and the mutable
state (busy flag, FIFO queue, request in service). -/
structure Server where
  id : Nat
  service_rate : ℚ
  max_queue_size : Int
  is_busy : Bool
  queue : List Request
  current_request : Option Request
deriving DecidableEq, Repr

instance : Inhabited Server := ⟨⟨0, 0, 0, false, [], none⟩⟩

/-- `Server.can_accept`. -/
def Server.can_accept (s : Server) : Bool :=
  if !s.is_busy then true
  else decide ((s.queue.length : Int) < s.max_queue_size)

/-- `Server.add_request`: returns the accepted flag together with the
updated server (Python mutates `self`). -/
def Server.add_request (s : Server) (req : Request) : Bool × Server :=
  if !s.is_busy then
    (true, { s with is_busy := true, current_request := some req })
  else if (s.queue.length : Int) < s.max_queue_size then
    (true, { s with queue := s.queue ++ [req] })
  else
    (false, s)

/-- `EventType` enum from `events.py`. -/
inductive EventType
  | ARRIVAL
  | DEPARTURE
  | STOP
deriving DecidableEq, Repr

/-- `Event` dataclass from `events.py`; `server_index` defaults to `-1`
for arrivals. -/
structure Event where
  time : ℚ
  event_type : EventType
  payload : Option Request
  server_index : Int
deriving DecidableEq, Repr

/-- `Event.__lt__` from `events.py`: comparison is by `time` alone. -/
def Event.lt (a b : Event) : Prop := a.time < b.time

instance : DecidableRel Event.lt := fun a b => inferInstanceAs (Decidable (a.time < b.time))

/-- Pop a least-time element (the `heapq.heappop` of the driver loop),
returning it with the remaining events. -/
def popMin : List Event → Option (Event × List Event)
  | [] => none
  | e :: es =>
    match popMin es with
    | none => some (e, [])
    | some (m, rest) =>
      if e.time ≤ m.time then some (e, es) else some (m, e :: rest)

/-- `StatsCollector` from `stats.py`. -/
structure StatsCollector where
  dropped_requests : Nat
  served_requests : Nat
  total_wait_time : ℚ
  total_service_time : ℚ
  last_departure_time : ℚ
  arrival_counter : Nat
deriving DecidableEq, Repr

def StatsCollector.init : StatsCollector := ⟨0, 0, 0, 0, 0, 0⟩

/-- `StatsCollector.get_next_id`: issues the counter value and increments it. -/
def StatsCollector.get_next_id (s : StatsCollector) : Nat × StatsCollector :=
  (s.arrival_counter, { s with arrival_counter := s.arrival_counter + 1 })

/-- `StatsCollector.log_drop`. -/
def StatsCollector.log_drop (s : StatsCollector) : StatsCollector :=
  { s with dropped_requests := s.dropped_requests + 1 }

/-- `StatsCollector.log_departure`. -/
def StatsCollector.log_departure (s : StatsCollector)
    (wait_time service_time current_time : ℚ) : StatsCollector :=
  { s with
    served_requests := s.served_requests + 1
    total_wait_time := s.total_wait_time + wait_time
    total_service_time := s.total_service_time + service_time
    last_departure_time := current_time }

/-- The values computed by `StatsCollector.print_report`:
served, dropped, last departure time, average wait, average service time
(averages default to 0 when nothing was served). -/
def StatsCollector.report (s : StatsCollector) : Nat × Nat × ℚ × ℚ × ℚ :=
  if 0 < s.served_requests then
    (s.served_requests, s.dropped_requests, s.last_departure_time,
      s.total_wait_time / s.served_requests, s.total_service_time / s.served_requests)
  else
    (s.served_requests, s.dropped_requests, s.last_departure_time, 0, 0)

/-- The index selection of `random.choices(servers, probs, k=1)`:
given the uniform draw `u`, walk the cumulative weights and return the
first index whose cumulative weight exceeds `u * total`, clamped to the
last index (`bisect_right(cum_weights, u * total, 0, len - 1)`). -/
def chooseFrom (target acc : ℚ) : List ℚ → Nat
  | [] => 0
  | [_] => 0
  | p :: rest =>
    if target < acc + p then 0 else 1 + chooseFrom target (acc + p) rest

def chooseIndex (probs : List ℚ) (u : ℚ) : Nat :=
  chooseFrom (u * probs.sum) 0 probs

/-- `LoadBalancer` from `network.py`. -/
structure LoadBalancer where
  servers : List Server
  probabilities : List ℚ
deriving DecidableEq, Repr

/-- `LoadBalancer.assign_request`: selects a server with one random draw
`u`, tries `add_request`, and returns (accepted, chosen index if accepted,
updated balancer).  Python returns the server object itself; the index is
the functional rendering of that reference. -/
def LoadBalancer.assign_request (lb : LoadBalancer) (req : Request) (u : ℚ) :
    Bool × Option Nat × LoadBalancer :=
  let idx := chooseIndex lb.probabilities u
  let server := lb.servers.getD idx default
  let res := server.add_request req
  let lb1 : LoadBalancer := { lb with servers := lb.servers.set idx res.2 }
  if res.1 then (true, some idx, lb1) else (false, none, lb1)

/-- `SimulationConfig` from `main.py`. -/
structure SimulationConfig where
  max_time : ℚ
  server_count : Nat
  probabilities : List ℚ
  arrival_rate : ℚ
  queue_sizes : List Int
  service_rates : List ℚ
deriving DecidableEq, Repr

/-- Python's `int(x)` on a numeric value: succeeds exactly on integers
(a fractional command-line token raises `ValueError`). -/
def toInt? (q : ℚ) : Option Int :=
  if q.den = 1 then some q.num else none

def listToInts? : List ℚ → Option (List Int)
  | [] => some []
  | q :: qs =>
    match toInt? q, listToInts? qs with
    | some i, some is => some (i :: is)
    | _, _ => none

/-- `parse_args` from `main.py`, over a numeric argv (index 0 is the
program name, as in `sys.argv`).  `none` models `sys.exit(1)`.  The checks
mirror the source in order: minimum length, `M ≥ 1`, total argument count,
integrality of the queue sizes, probability sum within `1e-5`, and
non-negative queue sizes.  No check is made on `max_time`,
`arrival_rate`, or the `service_rates`. -/
def parse_args (args : List ℚ) : Option SimulationConfig :=
  if args.length < 6 then none
  else
    match toInt? (args.getD 2 0) with
    | none => none
    | some mInt =>
      if mInt < 1 then none
      else
        let M := mInt.toNat
        let p_start := 3
        let p_end := p_start + M
        let lambda_index := p_end
        let q_start := lambda_index + 1
        let q_end := q_start + M
        let mu_start := q_end
        let mu_end := mu_start + M
        if args.length ≠ mu_end then none
        else
          let probabilities := (args.drop p_start).take M
          let arrival_rate := args.getD lambda_index 0
          let qvals := (args.drop q_start).take M
          let service_rates := (args.drop mu_start).take M
          match listToInts? qvals with
          | none => none
          | some queue_sizes =>
            if 1 / 100000 < |probabilities.sum - 1| then none
            else if queue_sizes.any (fun q => decide (q < 0)) then none
            else
              some ⟨args.getD 1 0, M, probabilities, arrival_rate,
                    queue_sizes, service_rates⟩

/-- The driver's mutable state in `main`: clock, pending events, network,
statistics, plus the cursor into the random stream. -/
structure SimState where
  clock : ℚ
  eventQueue : List Event
  lb : LoadBalancer
  stats : StatsCollector
  rngIdx : Nat
deriving DecidableEq, Repr

/-- `handle_arrival` from `main.py`.  `ev` is the popped Arrival event;
`rng` is the sampled-value stream.  Draw 1: the next inter-arrival
interval; draw 2: the `random.choices` selection; draw 3 (only on
immediate service): the service duration. -/
def handleArrival (cfg : SimulationConfig) (rng : Nat → ℚ) (ev : Event)
    (st : SimState) : SimState :=
  let t := ev.time
  let interval := rng st.rngIdx
  let next_arrival_time := t + interval
  let q1 : List Event :=
    if next_arrival_time < cfg.max_time then
      ⟨next_arrival_time, EventType.ARRIVAL, none, -1⟩ :: st.eventQueue
    else st.eventQueue
  let req : Request := ⟨st.stats.arrival_counter, t, none, none⟩
  let stats1 : StatsCollector :=
    { st.stats with arrival_counter := st.stats.arrival_counter + 1 }
  let u := rng (st.rngIdx + 1)
  let idx := chooseIndex st.lb.probabilities u
  let server := st.lb.servers.getD idx default
  let res := server.add_request req
  if !res.1 then
    { st with
      eventQueue := q1
      lb := { st.lb with servers := st.lb.servers.set idx res.2 }
      stats := stats1.log_drop
      rngIdx := st.rngIdx + 2 }
  else if res.2.current_request = some req then
    let dur := rng (st.rngIdx + 2)
    let req1 : Request :=
      { req with service_start_time := some t, service_duration := some dur }
    let server2 : Server := { res.2 with current_request := some req1 }
    let dep : Event := ⟨t + dur, EventType.DEPARTURE, some req1, (res.2.id : Int)⟩
    { st with
      eventQueue := dep :: q1
      lb := { st.lb with servers := st.lb.servers.set idx server2 }
      stats := stats1
      rngIdx := st.rngIdx + 3 }
  else
    { st with
      eventQueue := q1
      lb := { st.lb with servers := st.lb.servers.set idx res.2 }
      stats := stats1
      rngIdx := st.rngIdx + 2 }

/-- `handle_departure` from `main.py`.  Python's `servers[event.server_index]`
is modelled with `Int.toNat`/`getD`; reachable Departure events carry a
valid non-negative index, and Python's `None` payload would crash, so the
`getD default` escapes are dead in reachable states. -/
def handleDeparture (rng : Nat → ℚ) (ev : Event) (st : SimState) : SimState :=
  let t := ev.time
  let idx := ev.server_index.toNat
  let server := st.lb.servers.getD idx default
  let finished := ev.payload.getD default
  let wait_time := finished.service_start_time.getD 0 - finished.arrival_time
  let service_time := finished.service_duration.getD 0
  let stats1 := st.stats.log_departure wait_time service_time t
  match server.queue with
  | next :: rest =>
    let dur := rng st.rngIdx
    let next1 : Request :=
      { next with service_start_time := some t, service_duration := some dur }
    let server1 : Server :=
      { server with queue := rest, current_request := some next1 }
    let dep : Event := ⟨t + dur, EventType.DEPARTURE, some next1, (server.id : Int)⟩
    { st with
      eventQueue := dep :: st.eventQueue
      lb := { st.lb with servers := st.lb.servers.set idx server1 }
      stats := stats1
      rngIdx := st.rngIdx + 1 }
  | [] =>
    let server1 : Server :=
      { server with is_busy := false, current_request := none }
    { st with
      lb := { st.lb with servers := st.lb.servers.set idx server1 }
      stats := stats1 }

/-- One iteration of the driver loop in `main`: pop the earliest event,
advance the clock to its time, dispatch on its kind.  `none` means the
event queue is empty and the loop exits.  A `STOP` event has no handler
in the source (`if`/`elif`) and is simply consumed. -/
def stepSim (cfg : SimulationConfig) (rng : Nat → ℚ) (st : SimState) :
    Option SimState :=
  match popMin st.eventQueue with
  | none => none
  | some (ev, rest) =>
    let mid : SimState := { st with clock := ev.time, eventQueue := rest }
    match ev.event_type with
    | EventType.ARRIVAL => some (handleArrival cfg rng ev mid)
    | EventType.DEPARTURE => some (handleDeparture rng ev mid)
    | EventType.STOP => some mid

/-- The driver loop, fuel-indexed: runs until the queue empties or fuel
runs out. -/
def runSim (cfg : SimulationConfig) (rng : Nat → ℚ) : Nat → SimState → SimState
  | 0, st => st
  | fuel + 1, st =>
    match stepSim cfg rng st with
    | none => st
    | some st1 => runSim cfg rng fuel st1

/-- The servers built in `main`:
`[Server(i, service_rates[i], queue_sizes[i]) for i in range(M)]`. -/
def initServers (cfg : SimulationConfig) : List Server :=
  (List.range cfg.server_count).map fun i =>
    ⟨i, cfg.service_rates.getD i 0, cfg.queue_sizes.getD i 0, false, [], none⟩

/-- The initial state built in `main`: clock 0, empty statistics, and the
first Arrival pushed when its time is below the horizon (drawing stream
value 0 as the first inter-arrival interval). -/
def initState (cfg : SimulationConfig) (rng : Nat → ℚ) : SimState :=
  let first_arrival_time : ℚ := 0 + rng 0
  { clock := 0
    eventQueue :=
      if first_arrival_time < cfg.max_time then
        [⟨first_arrival_time, EventType.ARRIVAL, none, -1⟩]
      else []
    lb := ⟨initServers cfg, cfg.probabilities⟩
    stats := StatsCollector.init
    rngIdx := 1 }

/-! ### Basic predicates used by the invariants -/

/-- Bool test: the event is a Departure. -/
def isDep (e : Event) : Bool := decide (e.event_type = EventType.DEPARTURE)

/-- Bool test: the event is an Arrival. -/
def isArr (e : Event) : Bool := decide (e.event_type = EventType.ARRIVAL)

/-- Bool test: the event is a Departure destined for server `i`. -/
def isDepFor (i : Nat) (e : Event) : Bool :=
  decide (e.event_type = EventType.DEPARTURE) && decide (e.server_index = (i : Int))

/-- Total number of queued (waiting) requests across the servers. -/
def queueTotal (servers : List Server) : Nat :=
  (servers.map fun s => s.queue.length).sum

/-! ### Utility lemmas -/

theorem popMin_eq_none {q : List Event} : popMin q = none ↔ q = [] := by
  cases q with
  | nil => simp [popMin]
  | cons e es =>
    simp only [popMin]
    cases h : popMin es with
    | none => simp
    | some p => cases p with | mk m rest => by_cases hle : e.time ≤ m.time <;> simp [hle]

theorem popMin_perm : ∀ {q : List Event} {e : Event} {r : List Event},
    popMin q = some (e, r) → q.Perm (e :: r)
  | [], e, r, h => by simp [popMin] at h
  | x :: xs, e, r, h => by
    simp only [popMin] at h
    cases hm : popMin xs with
    | none =>
      rw [hm] at h
      obtain ⟨rfl, rfl⟩ := by simpa using h
      have : xs = [] := popMin_eq_none.mp hm
      subst this
      exact List.Perm.refl _
    | some p =>
      cases p with
      | mk m rest =>
        rw [hm] at h
        by_cases hle : x.time ≤ m.time
        · simp only [hle, if_pos] at h
          obtain ⟨rfl, rfl⟩ := by simpa using h
          exact List.Perm.refl _
        · simp only [hle, if_neg, not_false_iff] at h
          obtain ⟨rfl, rfl⟩ := by simpa using h
          have ih := popMin_perm hm
          exact (ih.cons x).trans (List.Perm.swap m x rest)

theorem popMin_mem {q : List Event} {e : Event} {r : List Event}
    (h : popMin q = some (e, r)) : e ∈ q :=
  (popMin_perm h).mem_iff.mpr (List.mem_cons_self _ _)

theorem popMin_min : ∀ {q : List Event} {e : Event} {r : List Event},
    popMin q = some (e, r) → ∀ x ∈ q, e.time ≤ x.time
  | [], e, r, h => by simp [popMin] at h
  | x :: xs, e, r, h => by
    simp only [popMin] at h
    cases hm : popMin xs with
    | none =>
      rw [hm] at h
      obtain ⟨rfl, rfl⟩ := by simpa using h
      have : xs = [] := popMin_eq_none.mp hm
      subst this
      intro y hy
      simp at hy
      subst hy
      exact le_refl _
    | some p =>
      cases p with
      | mk m rest =>
        have ih := popMin_min hm
        rw [hm] at h
        by_cases hle : x.time ≤ m.time
        · simp only [hle, if_pos] at h
          obtain ⟨rfl, rfl⟩ := by simpa using h
          intro y hy
          rcases List.mem_cons.mp hy with rfl | hy
          · exact le_refl _
          · exact le_trans hle (ih y hy)
        · simp only [hle, if_neg, not_false_iff] at h
          obtain ⟨rfl, rfl⟩ := by simpa using h
          intro y hy
          rcases List.mem_cons.mp hy with rfl | hy
          · exact le_of_lt (lt_of_not_le hle)
          · exact ih y hy

theorem add_request_idle (s : Server) (req : Request) (h : s.is_busy = false) :
    s.add_request req = (true, { s with is_busy := true, current_request := some req }) := by
  simp [Server.add_request, h]

theorem add_request_queued (s : Server) (req : Request) (h : s.is_busy = true)
    (h2 : (s.queue.length : Int) < s.max_queue_size) :
    s.add_request req = (true, { s with queue := s.queue ++ [req] }) := by
  simp [Server.add_request, h, h2]

theorem add_request_full (s : Server) (req : Request) (h : s.is_busy = true)
    (h2 : ¬ ((s.queue.length : Int) < s.max_queue_size)) :
    s.add_request req = (false, s) := by
  simp [Server.add_request, h, h2]

theorem add_request_dropped (s : Server) (req : Request)
    (h : (s.add_request req).1 = false) : (s.add_request req).2 = s := by
  unfold Server.add_request at *
  by_cases hb : s.is_busy
  · by_cases h2 : (s.queue.length : Int) < s.max_queue_size
    · simp [hb, h2] at h
    · simp [hb, h2]
  · simp [hb] at h

theorem chooseFrom_lt (t : ℚ) :
    ∀ (l : List ℚ) (a : ℚ), l ≠ [] → chooseFrom t a l < l.length
  | [], _, h => absurd rfl h
  | [p], a, _ => by simp [chooseFrom]
  | p :: q :: rest, a, _ => by
    by_cases hc : t < a + p
    · simp [chooseFrom, hc]
    · have ih := chooseFrom_lt t (q :: rest) (a + p) (by simp)
      simp only [chooseFrom, hc, if_neg, not_false_iff, List.length_cons] at *
      omega

theorem chooseIndex_lt (probs : List ℚ) (u : ℚ) (h : probs ≠ []) :
    chooseIndex probs u < probs.length :=
  chooseFrom_lt _ probs 0 h

theorem set_getD_self {α : Type} (d : α) :
    ∀ (l : List α) (i : Nat), l.set i (l.getD i d) = l
  | [], _ => rfl
  | x :: xs, 0 => rfl
  | x :: xs, i + 1 => by
    simp only [List.set_cons_succ, List.getD]
    rw [show (x :: xs).get? (i+1) = xs.get? i from rfl]
    have := set_getD_self d xs i
    simp only [List.getD] at this
    rw [this]

theorem sum_map_set {α : Type} (f : α → Nat) (d : α) :
    ∀ (l : List α) (i : Nat), i < l.length →
      ∀ v, ((l.set i v).map f).sum + f (l.getD i d) = (l.map f).sum + f v
  | [], i, h, v => by simp at h
  | x :: xs, 0, h, v => by simp [List.getD]; omega
  | x :: xs, i + 1, h, v => by
    simp only [List.length_cons, Nat.add_lt_add_iff_right] at h
    have ih := sum_map_set f d xs i h v
    simp only [List.set_cons_succ, List.map_cons, List.sum_cons, List.getD] at *
    rw [show (x :: xs).get? (i+1) = xs.get? i from rfl]
    omega

theorem mem_ite_cons {c : Prop} [Decidable c] {na e : Event} {Q : List Event}
    (h : e ∈ (if c then na :: Q else Q)) : e = na ∨ e ∈ Q := by
  split at h
  · exact List.mem_cons.mp h
  · exact Or.inr h

theorem countP_ite_cons (p : Event → Bool) {c : Prop} [Decidable c]
    (na : Event) (Q : List Event) (hna : p na = false) :
    (if c then na :: Q else Q).countP p = Q.countP p := by
  split <;> simp [List.countP_cons, hna]

/-! ### Facts guaranteed by `parse_args` about an accepted configuration -/

theorem listToInts?_length : ∀ {l : List ℚ} {is : List Int},
    listToInts? l = some is → is.length = l.length
  | [], is, h => by simp [listToInts?] at h; simp [← h]
  | q :: qs, is, h => by
    simp only [listToInts?] at h
    cases h1 : toInt? q with
    | none => rw [h1] at h; exact absurd h (by simp)
    | some i =>
      rw [h1] at h
      cases h2 : listToInts? qs with
      | none => rw [h2] at h; exact absurd h (by simp)
      | some js =>
        rw [h2] at h
        obtain rfl := by simpa using h
        simp [listToInts?_length h2]

/-- The constraints `parse_args` establishes on every configuration it
returns: at least one server, all three per-server lists of length `M`,
probabilities summing to 1 within `1e-5`, and non-negative queue sizes.
Note there is no constraint on `arrival_rate`, `service_rates`, or
`max_time`. -/
structure CfgOK (cfg : SimulationConfig) : Prop where
  count_pos : 1 ≤ cfg.server_count
  probs_len : cfg.probabilities.length = cfg.server_count
  qs_len : cfg.queue_sizes.length = cfg.server_count
  mus_len : cfg.service_rates.length = cfg.server_count
  qs_nonneg : ∀ q ∈ cfg.queue_sizes, 0 ≤ q
  probs_sum : |cfg.probabilities.sum - 1| ≤ 1 / 100000

theorem parse_args_sound {args : List ℚ} {cfg : SimulationConfig}
    (h : parse_args args = some cfg) : CfgOK cfg := by
  simp only [parse_args] at h
  split at h
  · exact absurd h (by simp)
  split at h
  · exact absurd h (by simp)
  rename_i mInt hm
  split at h
  · exact absurd h (by simp)
  rename_i hcount
  split at h
  · exact absurd h (by simp)
  rename_i hlen
  split at h
  · exact absurd h (by simp)
  rename_i qs hq
  split at h
  · exact absurd h (by simp)
  rename_i hsum
  split at h
  · exact absurd h (by simp)
  rename_i hneg
  obtain rfl := by simpa using h.symm
  have hM : 1 ≤ mInt.toNat := by omega
  refine ⟨hM, ?_, ?_, ?_, ?_, ?_⟩
  · simp only [List.length_take, List.length_drop]
    omega
  · rw [listToInts?_length hq]
    simp only [List.length_take, List.length_drop]
    omega
  · simp only [List.length_take, List.length_drop]
    omega
  · intro q hqmem
    by_contra hq0
    exact hneg (List.any_eq_true.mpr ⟨q, hqmem, by simp; omega⟩)
  · exact le_of_not_lt hsum

/-! ### The inductive run invariant -/

/-- Invariant maintained by every driver iteration.  It packages the
data-model invariants of the spec (capacity bound, `current_request`
present iff busy) together with the bookkeeping needed to prove them and
the conservation/ordering claims: event times never precede the clock,
every pending Departure is well-formed and addressed to a real server,
a server is busy exactly when one Departure is pending for it, queued
requests are unstamped and were issued in the past, and the id counter
counts drops, services, waiting requests and in-service requests. -/
structure Inv (cfg : SimulationConfig) (st : SimState) : Prop where
  probs_eq : st.lb.probabilities = cfg.probabilities
  len_eq : st.lb.servers.length = cfg.server_count
  sid : ∀ (i : Nat) (h : i < st.lb.servers.length), (st.lb.servers.get ⟨i, h⟩).id = i
  cap : ∀ s ∈ st.lb.servers, (s.queue.length : Int) ≤ s.max_queue_size
  busy_iff : ∀ s ∈ st.lb.servers, s.current_request.isSome = s.is_busy
  queue_busy : ∀ s ∈ st.lb.servers, s.queue ≠ [] → s.is_busy = true
  queued_fresh : ∀ s ∈ st.lb.servers, ∀ r ∈ s.queue,
    r.service_start_time = none ∧ r.service_duration = none ∧
      r.arrival_time ≤ st.clock ∧ r.id < st.stats.arrival_counter
  cur_id : ∀ s ∈ st.lb.servers, ∀ r, s.current_request = some r →
    r.id < st.stats.arrival_counter
  times : ∀ e ∈ st.eventQueue, st.clock ≤ e.time
  dep_ok : ∀ e ∈ st.eventQueue, e.event_type = EventType.DEPARTURE →
    0 ≤ e.server_index ∧ e.server_index.toNat < st.lb.servers.length ∧
      ∃ r ts d, e.payload = some r ∧ r.service_start_time = some ts ∧
        r.arrival_time ≤ ts ∧ r.service_duration = some d
  dep_count : ∀ (i : Nat) (h : i < st.lb.servers.length),
    st.eventQueue.countP (isDepFor i) =
      (if (st.lb.servers.get ⟨i, h⟩).is_busy then 1 else 0)
  conserve : st.stats.arrival_counter =
    st.stats.served_requests + st.stats.dropped_requests +
      queueTotal st.lb.servers + st.eventQueue.countP isDep

theorem initServers_length (cfg : SimulationConfig) :
    (initServers cfg).length = cfg.server_count := by
  simp [initServers]

/-- The invariant holds at the state `main` builds before the loop. -/
theorem init_inv (cfg : SimulationConfig) (rng : Nat → ℚ)
    (hc : CfgOK cfg) (hr : ∀ n, 0 ≤ rng n) : Inv cfg (initState cfg rng) := by
  have hmem : ∀ s ∈ initServers cfg, s.is_busy = false ∧ s.queue = [] ∧
      s.current_request = none ∧ 0 ≤ s.max_queue_size := by
    intro s hs
    simp only [initServers, List.mem_map, List.mem_range] at hs
    obtain ⟨i, hi, rfl⟩ := hs
    refine ⟨rfl, rfl, rfl, ?_⟩
    by_cases hlt : i < cfg.queue_sizes.length
    · rw [List.getD_eq_getElem _ _ hlt]
      exact hc.qs_nonneg _ (List.mem_iff_getElem.mpr ⟨i, hlt, rfl⟩)
    · rw [List.getD_eq_default _ _ (le_of_not_lt hlt)]
  refine ⟨rfl, initServers_length cfg, ?_, ?_, ?_, ?_, ?_, ?_, ?_, ?_, ?_, ?_⟩
  · intro i h
    simp only [initState, initServers] at *
    simp only [List.get_eq_getElem, List.getElem_map, List.getElem_range]
  · intro s hs
    obtain ⟨_, hq, _, hcap⟩ := hmem s hs
    simp [hq, hcap]
  · intro s hs
    obtain ⟨hb, _, hcur, _⟩ := hmem s hs
    simp [hb, hcur]
  · intro s hs
    obtain ⟨_, hq, _, _⟩ := hmem s hs
    simp [hq]
  · intro s hs r hrq
    obtain ⟨_, hq, _, _⟩ := hmem s hs
    rw [hq] at hrq
    exact absurd hrq (List.not_mem_nil r)
  · intro s hs r hcur
    obtain ⟨_, _, hc0, _⟩ := hmem s hs
    rw [hc0] at hcur
    exact absurd hcur (by simp)
  · intro e he
    simp only [initState] at he
    split at he
    · rcases List.mem_singleton.mp he with rfl
      simpa using hr 0
    · exact absurd he (List.not_mem_nil e)
  · intro e he hd
    simp only [initState] at he
    split at he
    · rcases List.mem_singleton.mp he with rfl
      simp at hd
    · exact absurd he (List.not_mem_nil e)
  · intro i h
    simp only [initState] at h ⊢
    have hb := (hmem _ (List.get_mem (initServers cfg) i h)).1
    simp only [hb, Bool.false_eq_true, if_false]
    split
    · simp [isDepFor]
    · simp
  · simp only [initState, StatsCollector.init]
    have hqt : queueTotal (initServers cfg) = 0 := by
      simp only [queueTotal, initServers, List.map_map]
      rw [List.sum_eq_zero]
      intro x hx
      simp only [List.mem_map, List.mem_range, Function.comp] at hx
      obtain ⟨i, _, rfl⟩ := hx
      rfl
    rw [hqt]
    split
    · simp [isDep]
    · simp

/-- Popping a non-Departure event and advancing the clock to its time
preserves the invariant. -/
theorem pop_inv {cfg : SimulationConfig} {st : SimState} {ev : Event}
    {rest : List Event} (hI : Inv cfg st)
    (hpop : popMin st.eventQueue = some (ev, rest))
    (hnd : ev.event_type ≠ EventType.DEPARTURE) :
    Inv cfg { st with clock := ev.time, eventQueue := rest } := by
  have hperm := popMin_perm hpop
  have hmin := popMin_min hpop
  have hclk : st.clock ≤ ev.time := hI.times ev (popMin_mem hpop)
  have hrest_mem : ∀ e ∈ rest, e ∈ st.eventQueue := fun e he =>
    hperm.mem_iff.mpr (List.mem_cons_of_mem _ he)
  have hcount : ∀ p : Event → Bool, p ev = false →
      rest.countP p = st.eventQueue.countP p := by
    intro p hp
    rw [hperm.countP_eq p, List.countP_cons, hp]
    simp
  refine ⟨hI.probs_eq, hI.len_eq, hI.sid, hI.cap, hI.busy_iff, hI.queue_busy,
    ?_, ?_, ?_, ?_, ?_, ?_⟩
  · intro s hs r hrq
    obtain ⟨h1, h2, h3, h4⟩ := hI.queued_fresh s hs r hrq
    exact ⟨h1, h2, le_trans h3 hclk, h4⟩
  · exact hI.cur_id
  · intro e he
    exact hmin e (hrest_mem e he)
  · intro e he hd
    exact hI.dep_ok e (hrest_mem e he) hd
  · intro i h
    rw [hcount (isDepFor i) (by simp [isDepFor, hnd])]
    exact hI.dep_count i h
  · rw [hcount isDep (by simp [isDep, hnd])]
    exact hI.conserve

/-! ### Branch equations for `handleArrival` -/

theorem handleArrival_drop_eq (cfg : SimulationConfig) (rng : Nat → ℚ)
    (ev : Event) (st : SimState) (idx : Nat) (server : Server)
    (hidx : idx = chooseIndex st.lb.probabilities (rng (st.rngIdx + 1)))
    (hsrv : server = st.lb.servers.getD idx default)
    (hb : server.is_busy = true)
    (hfull : ¬ ((server.queue.length : Int) < server.max_queue_size)) :
    handleArrival cfg rng ev st =
      { st with
        eventQueue :=
          if ev.time + rng st.rngIdx < cfg.max_time then
            ⟨ev.time + rng st.rngIdx, EventType.ARRIVAL, none, -1⟩ :: st.eventQueue
          else st.eventQueue
        lb := { st.lb with servers := st.lb.servers.set idx server }
        stats := { st.stats with
          dropped_requests := st.stats.dropped_requests + 1
          arrival_counter := st.stats.arrival_counter + 1 }
        rngIdx := st.rngIdx + 2 } := by
  subst hidx
  subst hsrv
  simp only [handleArrival,
    add_request_full _ _ hb hfull, StatsCollector.log_drop]
  simp

theorem handleArrival_queued_eq (cfg : SimulationConfig) (rng : Nat → ℚ)
    (ev : Event) (st : SimState) (idx : Nat) (server : Server)
    (hidx : idx = chooseIndex st.lb.probabilities (rng (st.rngIdx + 1)))
    (hsrv : server = st.lb.servers.getD idx default)
    (hb : server.is_busy = true)
    (hroom : (server.queue.length : Int) < server.max_queue_size)
    (hneq : server.current_request ≠
      some ⟨st.stats.arrival_counter, ev.time, none, none⟩)
    (server1 : Server)
    (hs1 : server1 =
      { server with
          queue := server.queue ++
            [⟨st.stats.arrival_counter, ev.time, none, none⟩] }) :
    handleArrival cfg rng ev st =
      { st with
        eventQueue :=
          if ev.time + rng st.rngIdx < cfg.max_time then
            ⟨ev.time + rng st.rngIdx, EventType.ARRIVAL, none, -1⟩ :: st.eventQueue
          else st.eventQueue
        lb := { st.lb with servers := st.lb.servers.set idx server1 }
        stats := { st.stats with
          arrival_counter := st.stats.arrival_counter + 1 }
        rngIdx := st.rngIdx + 2 } := by
  subst hidx
  subst hsrv
  subst hs1
  simp only [handleArrival, add_request_queued _ _ hb hroom,
    Bool.not_true, Bool.false_eq_true, if_false]
  rw [if_neg (by simpa using hneq)]

theorem handleArrival_immediate_eq (cfg : SimulationConfig) (rng : Nat → ℚ)
    (ev : Event) (st : SimState) (idx : Nat) (server : Server)
    (hidx : idx = chooseIndex st.lb.probabilities (rng (st.rngIdx + 1)))
    (hsrv : server = st.lb.servers.getD idx default)
    (hb : server.is_busy = false)
    (server2 : Server)
    (hs2 : server2 =
      { server with
          is_busy := true
          current_request := some ⟨st.stats.arrival_counter, ev.time,
            some ev.time, some (rng (st.rngIdx + 2))⟩ }) :
    handleArrival cfg rng ev st =
      { st with
        eventQueue :=
          ⟨ev.time + rng (st.rngIdx + 2), EventType.DEPARTURE,
            some ⟨st.stats.arrival_counter, ev.time, some ev.time,
              some (rng (st.rngIdx + 2))⟩, (server.id : Int)⟩ ::
          (if ev.time + rng st.rngIdx < cfg.max_time then
              ⟨ev.time + rng st.rngIdx, EventType.ARRIVAL, none, -1⟩ :: st.eventQueue
            else st.eventQueue)
        lb := { st.lb with servers := st.lb.servers.set idx server2 }
        stats := { st.stats with
          arrival_counter := st.stats.arrival_counter + 1 }
        rngIdx := st.rngIdx + 3 } := by
  subst hidx
  subst hsrv
  subst hs2
  simp only [handleArrival, add_request_idle _ _ hb]
  simp

/-! ### Invariant preservation through `handle_arrival` -/

theorem inv_after_drop {cfg : SimulationConfig} {st : SimState}
    (hI : Inv cfg st) (q1 : List Event) (k : Nat)
    (hq1_times : ∀ e ∈ q1, st.clock ≤ e.time)
    (hq1_dep : ∀ e ∈ q1, e.event_type = EventType.DEPARTURE →
      0 ≤ e.server_index ∧ e.server_index.toNat < st.lb.servers.length ∧
        ∃ r ts d, e.payload = some r ∧ r.service_start_time = some ts ∧
          r.arrival_time ≤ ts ∧ r.service_duration = some d)
    (hq1_count : ∀ i, q1.countP (isDepFor i) = st.eventQueue.countP (isDepFor i))
    (hq1_dcount : q1.countP isDep = st.eventQueue.countP isDep) :
    Inv cfg { st with
      eventQueue := q1
      stats := { st.stats with
        dropped_requests := st.stats.dropped_requests + 1
        arrival_counter := st.stats.arrival_counter + 1 }
      rngIdx := k } := by
  refine ⟨hI.probs_eq, hI.len_eq, hI.sid, hI.cap, hI.busy_iff, hI.queue_busy,
    ?_, ?_, hq1_times, hq1_dep, ?_, ?_⟩
  · intro s hs r hrq
    obtain ⟨h1, h2, h3, h4⟩ := hI.queued_fresh s hs r hrq
    exact ⟨h1, h2, h3, Nat.lt_succ_of_lt h4⟩
  · intro s hs r hcur
    exact Nat.lt_succ_of_lt (hI.cur_id s hs r hcur)
  · intro i h
    rw [hq1_count i]
    exact hI.dep_count i h
  · show st.stats.arrival_counter + 1 =
      st.stats.served_requests + (st.stats.dropped_requests + 1) +
        queueTotal st.lb.servers + q1.countP isDep
    rw [hq1_dcount]
    have hcv := hI.conserve
    omega

theorem inv_after_queued {cfg : SimulationConfig} {st : SimState}
    (hI : Inv cfg st)
    (idx : Nat) (hidxlt : idx < st.lb.servers.length)
    (server : Server) (hs : server = st.lb.servers.get ⟨idx, hidxlt⟩)
    (hb : server.is_busy = true)
    (hroom : (server.queue.length : Int) < server.max_queue_size)
    (req : Request)
    (hreq_start : req.service_start_time = none)
    (hreq_dur : req.service_duration = none)
    (hreq_arr : req.arrival_time ≤ st.clock)
    (hreq_id : req.id = st.stats.arrival_counter)
    (server1 : Server)
    (hs1 : server1 = { server with queue := server.queue ++ [req] })
    (q1 : List Event) (k : Nat)
    (hq1_times : ∀ e ∈ q1, st.clock ≤ e.time)
    (hq1_dep : ∀ e ∈ q1, e.event_type = EventType.DEPARTURE →
      0 ≤ e.server_index ∧ e.server_index.toNat < st.lb.servers.length ∧
        ∃ r ts d, e.payload = some r ∧ r.service_start_time = some ts ∧
          r.arrival_time ≤ ts ∧ r.service_duration = some d)
    (hq1_count : ∀ i, q1.countP (isDepFor i) = st.eventQueue.countP (isDepFor i))
    (hq1_dcount : q1.countP isDep = st.eventQueue.countP isDep) :
    Inv cfg { st with
      eventQueue := q1
      lb := { st.lb with servers := st.lb.servers.set idx server1 }
      stats := { st.stats with
        arrival_counter := st.stats.arrival_counter + 1 }
      rngIdx := k } := by
  have hsmem : server ∈ st.lb.servers := by
    rw [hs]
    exact List.get_mem _ _ _
  have hgd : st.lb.servers.getD idx default = server := by
    rw [hs, List.get_eq_getElem, List.getD_eq_getElem _ _ hidxlt]
  refine ⟨hI.probs_eq, ?_, ?_, ?_, ?_, ?_, ?_, ?_, hq1_times, ?_, ?_, ?_⟩
  · show (st.lb.servers.set idx server1).length = cfg.server_count
    rw [List.length_set]
    exact hI.len_eq
  · intro i h
    have hl : i < st.lb.servers.length := by simpa using h
    show ((st.lb.servers.set idx server1).get ⟨i, h⟩).id = i
    rw [List.get_eq_getElem, List.getElem_set]
    split
    · rename_i heq
      subst heq
      rw [hs1]
      show server.id = idx
      rw [hs]
      exact hI.sid idx hidxlt
    · have := hI.sid i hl
      rw [List.get_eq_getElem] at this
      exact this
  · intro s hmem
    rcases List.mem_or_eq_of_mem_set hmem with hold | rfl
    · exact hI.cap s hold
    · rw [hs1]
      show ((server.queue ++ [req]).length : Int) ≤ server.max_queue_size
      rw [List.length_append]
      push_cast
      simp only [List.length_cons, List.length_nil]
      omega
  · intro s hmem
    rcases List.mem_or_eq_of_mem_set hmem with hold | rfl
    · exact hI.busy_iff s hold
    · rw [hs1]
      show server.current_request.isSome = server.is_busy
      exact hI.busy_iff server hsmem
  · intro s hmem
    rcases List.mem_or_eq_of_mem_set hmem with hold | rfl
    · exact hI.queue_busy s hold
    · intro _
      rw [hs1]
      exact hb
  · intro s hmem r hrq
    rcases List.mem_or_eq_of_mem_set hmem with hold | rfl
    · obtain ⟨h1, h2, h3, h4⟩ := hI.queued_fresh s hold r hrq
      exact ⟨h1, h2, h3, Nat.lt_succ_of_lt h4⟩
    · rw [hs1] at hrq
      rcases List.mem_append.mp hrq with hr | hr
      · obtain ⟨h1, h2, h3, h4⟩ := hI.queued_fresh server hsmem r hr
        exact ⟨h1, h2, h3, Nat.lt_succ_of_lt h4⟩
      · have hre : r = req := List.mem_singleton.mp hr
        subst hre
        refine ⟨hreq_start, hreq_dur, hreq_arr, ?_⟩
        show r.id < st.stats.arrival_counter + 1
        omega
  · intro s hmem r hcur
    rcases List.mem_or_eq_of_mem_set hmem with hold | rfl
    · exact Nat.lt_succ_of_lt (hI.cur_id s hold r hcur)
    · rw [hs1] at hcur
      exact Nat.lt_succ_of_lt (hI.cur_id server hsmem r hcur)
  · intro e he hd
    obtain ⟨h1, h2, h3⟩ := hq1_dep e he hd
    refine ⟨h1, ?_, h3⟩
    show e.server_index.toNat < (st.lb.servers.set idx server1).length
    rw [List.length_set]
    exact h2
  · intro i h
    have hl : i < st.lb.servers.length := by simpa using h
    rw [hq1_count i]
    show st.eventQueue.countP (isDepFor i) =
      if ((st.lb.servers.set idx server1).get ⟨i, h⟩).is_busy then 1 else 0
    rw [List.get_eq_getElem]
    rcases eq_or_ne idx i with rfl | hne
    · rw [List.getElem_set_self]
      have hd0 := hI.dep_count idx hidxlt
      rw [← hs] at hd0
      rw [hd0, hs1]
    · rw [List.getElem_set_ne hne]
      have hd0 := hI.dep_count i hl
      rw [List.get_eq_getElem] at hd0
      exact hd0
  · show st.stats.arrival_counter + 1 =
      st.stats.served_requests + st.stats.dropped_requests +
        queueTotal (st.lb.servers.set idx server1) + q1.countP isDep
    have hqt : queueTotal (st.lb.servers.set idx server1) +
        server.queue.length = queueTotal st.lb.servers +
          (server.queue.length + 1) := by
      have h0 := sum_map_set (fun s => s.queue.length) default
        st.lb.servers idx hidxlt server1
      rw [hgd] at h0
      unfold queueTotal
      simpa [hs1] using h0
    rw [hq1_dcount]
    have hcv := hI.conserve
    omega

theorem inv_after_immediate {cfg : SimulationConfig} {st : SimState}
    (hI : Inv cfg st)
    (idx : Nat) (hidxlt : idx < st.lb.servers.length)
    (server : Server) (hs : server = st.lb.servers.get ⟨idx, hidxlt⟩)
    (hb : server.is_busy = false)
    (req1 : Request) (ts : ℚ)
    (hreq1_start : req1.service_start_time = some ts)
    (hreq1_arr : req1.arrival_time ≤ ts)
    (hreq1_dur : ∃ d, req1.service_duration = some d)
    (hreq1_id : req1.id = st.stats.arrival_counter)
    (server2 : Server)
    (hs2 : server2 =
      { server with
          is_busy := true
          current_request := some req1 })
    (tdep : ℚ) (htdep : st.clock ≤ tdep)
    (q1 : List Event) (k : Nat)
    (hq1_times : ∀ e ∈ q1, st.clock ≤ e.time)
    (hq1_dep : ∀ e ∈ q1, e.event_type = EventType.DEPARTURE →
      0 ≤ e.server_index ∧ e.server_index.toNat < st.lb.servers.length ∧
        ∃ r ts' d, e.payload = some r ∧ r.service_start_time = some ts' ∧
          r.arrival_time ≤ ts' ∧ r.service_duration = some d)
    (hq1_count : ∀ i, q1.countP (isDepFor i) = st.eventQueue.countP (isDepFor i))
    (hq1_dcount : q1.countP isDep = st.eventQueue.countP isDep) :
    Inv cfg { st with
      eventQueue :=
        ⟨tdep, EventType.DEPARTURE, some req1, (server.id : Int)⟩ :: q1
      lb := { st.lb with servers := st.lb.servers.set idx server2 }
      stats := { st.stats with
        arrival_counter := st.stats.arrival_counter + 1 }
      rngIdx := k } := by
  have hsmem : server ∈ st.lb.servers := by
    rw [hs]
    exact List.get_mem _ _ _
  have hgd : st.lb.servers.getD idx default = server := by
    rw [hs, List.get_eq_getElem, List.getD_eq_getElem _ _ hidxlt]
  have hsid : server.id = idx := by
    rw [hs]
    exact hI.sid idx hidxlt
  refine ⟨hI.probs_eq, ?_, ?_, ?_, ?_, ?_, ?_, ?_, ?_, ?_, ?_, ?_⟩
  · show (st.lb.servers.set idx server2).length = cfg.server_count
    rw [List.length_set]
    exact hI.len_eq
  · intro i h
    have hl : i < st.lb.servers.length := by simpa using h
    show ((st.lb.servers.set idx server2).get ⟨i, h⟩).id = i
    rw [List.get_eq_getElem, List.getElem_set]
    split
    · rename_i heq
      subst heq
      rw [hs2]
      show server.id = idx
      exact hsid
    · have := hI.sid i hl
      rw [List.get_eq_getElem] at this
      exact this
  · intro s hmem
    rcases List.mem_or_eq_of_mem_set hmem with hold | rfl
    · exact hI.cap s hold
    · rw [hs2]
      show (server.queue.length : Int) ≤ server.max_queue_size
      exact hI.cap server hsmem
  · intro s hmem
    rcases List.mem_or_eq_of_mem_set hmem with hold | rfl
    · exact hI.busy_iff s hold
    · rw [hs2]
      rfl
  · intro s hmem
    rcases List.mem_or_eq_of_mem_set hmem with hold | rfl
    · exact hI.queue_busy s hold
    · intro _
      rw [hs2]
  · intro s hmem r hrq
    rcases List.mem_or_eq_of_mem_set hmem with hold | rfl
    · obtain ⟨h1, h2, h3, h4⟩ := hI.queued_fresh s hold r hrq
      exact ⟨h1, h2, h3, Nat.lt_succ_of_lt h4⟩
    · rw [hs2] at hrq
      obtain ⟨h1, h2, h3, h4⟩ := hI.queued_fresh server hsmem r hrq
      exact ⟨h1, h2, h3, Nat.lt_succ_of_lt h4⟩
  · intro s hmem r hcur
    rcases List.mem_or_eq_of_mem_set hmem with hold | rfl
    · exact Nat.lt_succ_of_lt (hI.cur_id s hold r hcur)
    · rw [hs2] at hcur
      simp only [Option.some.injEq] at hcur
      subst hcur
      show req1.id < st.stats.arrival_counter + 1
      omega
  · intro e he
    rcases List.mem_cons.mp he with rfl | he2
    · exact htdep
    · exact hq1_times e he2
  · intro e he hd
    rcases List.mem_cons.mp he with rfl | he2
    · refine ⟨by positivity, ?_, req1, ts, ?_⟩
      · show ((server.id : Int)).toNat < (st.lb.servers.set idx server2).length
        rw [List.length_set, Int.toNat_natCast, hsid]
        exact hidxlt
      · obtain ⟨d, hd2⟩ := hreq1_dur
        exact ⟨d, rfl, hreq1_start, hreq1_arr, hd2⟩
    · obtain ⟨h1, h2, h3⟩ := hq1_dep e he2 hd
      refine ⟨h1, ?_, h3⟩
      show e.server_index.toNat < (st.lb.servers.set idx server2).length
      rw [List.length_set]
      exact h2
  · intro i h
    have hl : i < st.lb.servers.length := by simpa using h
    show List.countP (isDepFor i)
        (⟨tdep, EventType.DEPARTURE, some req1, (server.id : Int)⟩ :: q1) =
      if ((st.lb.servers.set idx server2).get ⟨i, h⟩).is_busy then 1 else 0
    rw [List.countP_cons, hq1_count i, List.get_eq_getElem]
    rcases eq_or_ne idx i with rfl | hne
    · rw [List.getElem_set_self]
      have hd0 := hI.dep_count idx hidxlt
      rw [← hs, hb] at hd0
      simp only [Bool.false_eq_true, if_false] at hd0
      have hpt : isDepFor idx
          ⟨tdep, EventType.DEPARTURE, some req1, (server.id : Int)⟩ = true := by
        simp [isDepFor, hsid]
      rw [hd0, hpt, hs2]
      rfl
    · rw [List.getElem_set_ne hne]
      have hd0 := hI.dep_count i hl
      rw [List.get_eq_getElem] at hd0
      have hpf : isDepFor i
          ⟨tdep, EventType.DEPARTURE, some req1, (server.id : Int)⟩ = false := by
        simp only [isDepFor, Bool.and_eq_false_iff]
        right
        simp only [decide_eq_false_iff_not]
        rw [hsid]
        intro hcontra
        exact hne (Int.natCast_inj.mp hcontra)
      rw [hpf, hd0]
      simp
  · show st.stats.arrival_counter + 1 =
      st.stats.served_requests + st.stats.dropped_requests +
        queueTotal (st.lb.servers.set idx server2) +
        List.countP isDep
          (⟨tdep, EventType.DEPARTURE, some req1, (server.id : Int)⟩ :: q1)
    have hqt : queueTotal (st.lb.servers.set idx server2) +
        server.queue.length = queueTotal st.lb.servers + server.queue.length := by
      have h0 := sum_map_set (fun s => s.queue.length) default
        st.lb.servers idx hidxlt server2
      rw [hgd] at h0
      unfold queueTotal
      simpa [hs2] using h0
    rw [List.countP_cons, hq1_dcount]
    have hdep1 : isDep ⟨tdep, EventType.DEPARTURE, some req1, (server.id : Int)⟩ = true := by
      simp [isDep]
    rw [if_pos hdep1]
    have hcv := hI.conserve
    omega

/-- `handle_arrival` preserves the invariant (the popped event's time has
already been written to the clock). -/
theorem handleArrival_inv {cfg : SimulationConfig} {rng : Nat → ℚ} {ev : Event}
    {st : SimState} (hc : CfgOK cfg) (hr : ∀ n, 0 ≤ rng n)
    (hI : Inv cfg st) (ht : ev.time = st.clock) :
    Inv cfg (handleArrival cfg rng ev st) := by
  have hplen : 0 < st.lb.probabilities.length := by
    rw [hI.probs_eq, hc.probs_len]
    exact hc.count_pos
  have hlen2 : st.lb.probabilities.length = st.lb.servers.length := by
    rw [hI.probs_eq, hc.probs_len, hI.len_eq]
  have hidxlt : chooseIndex st.lb.probabilities (rng (st.rngIdx + 1)) <
      st.lb.servers.length := by
    have h1 := chooseIndex_lt st.lb.probabilities (rng (st.rngIdx + 1))
      (List.length_pos.mp hplen)
    rw [hlen2] at h1
    exact h1
  set idx := chooseIndex st.lb.probabilities (rng (st.rngIdx + 1)) with hidxdef
  set server := st.lb.servers.getD idx default with hsrvdef
  have hs_get : server = st.lb.servers.get ⟨idx, hidxlt⟩ := by
    rw [hsrvdef, List.get_eq_getElem, List.getD_eq_getElem _ _ hidxlt]
  have hsmem : server ∈ st.lb.servers := by
    rw [hs_get]
    exact List.get_mem _ _ _
  have hq1_times : ∀ e ∈ (if ev.time + rng st.rngIdx < cfg.max_time then
      (⟨ev.time + rng st.rngIdx, EventType.ARRIVAL, none, -1⟩ : Event) :: st.eventQueue
    else st.eventQueue), st.clock ≤ e.time := by
    intro e he
    rcases mem_ite_cons he with rfl | he2
    · show st.clock ≤ ev.time + rng st.rngIdx
      rw [← ht]
      exact le_add_of_nonneg_right (hr _)
    · exact hI.times e he2
  have hq1_dep : ∀ e ∈ (if ev.time + rng st.rngIdx < cfg.max_time then
      (⟨ev.time + rng st.rngIdx, EventType.ARRIVAL, none, -1⟩ : Event) :: st.eventQueue
    else st.eventQueue), e.event_type = EventType.DEPARTURE →
      0 ≤ e.server_index ∧ e.server_index.toNat < st.lb.servers.length ∧
        ∃ r ts d, e.payload = some r ∧ r.service_start_time = some ts ∧
          r.arrival_time ≤ ts ∧ r.service_duration = some d := by
    intro e he hd
    rcases mem_ite_cons he with rfl | he2
    · simp at hd
    · exact hI.dep_ok e he2 hd
  have hq1_count : ∀ i, List.countP (isDepFor i)
      (if ev.time + rng st.rngIdx < cfg.max_time then
        (⟨ev.time + rng st.rngIdx, EventType.ARRIVAL, none, -1⟩ : Event) :: st.eventQueue
      else st.eventQueue) = st.eventQueue.countP (isDepFor i) :=
    fun i => countP_ite_cons _ _ _ (by simp [isDepFor])
  have hq1_dcount : List.countP isDep
      (if ev.time + rng st.rngIdx < cfg.max_time then
        (⟨ev.time + rng st.rngIdx, EventType.ARRIVAL, none, -1⟩ : Event) :: st.eventQueue
      else st.eventQueue) = st.eventQueue.countP isDep :=
    countP_ite_cons _ _ _ (by simp [isDep])
  by_cases hb : server.is_busy
  · by_cases hroom : (server.queue.length : Int) < server.max_queue_size
    · obtain ⟨rc, hrc⟩ : ∃ rc, server.current_request = some rc := by
        have hbi := hI.busy_iff server hsmem
        rw [hb] at hbi
        exact Option.isSome_iff_exists.mp hbi
      have hneq : server.current_request ≠
          some ⟨st.stats.arrival_counter, ev.time, none, none⟩ := by
        rw [hrc]
        intro hcon
        have hrcid := hI.cur_id server hsmem rc hrc
        simp only [Option.some.injEq] at hcon
        rw [hcon] at hrcid
        simp at hrcid
      rw [handleArrival_queued_eq cfg rng ev st idx server hidxdef hsrvdef
        hb hroom hneq _ rfl]
      exact inv_after_queued hI idx hidxlt server hs_get hb hroom
        _ rfl rfl (le_of_eq ht) rfl _ rfl _ _
        hq1_times hq1_dep hq1_count hq1_dcount
    · rw [handleArrival_drop_eq cfg rng ev st idx server hidxdef hsrvdef hb hroom]
      have hsetid : st.lb.servers.set idx server = st.lb.servers := by
        rw [hsrvdef]
        exact set_getD_self default st.lb.servers idx
      rw [hsetid]
      exact inv_after_drop hI _ _ hq1_times hq1_dep hq1_count hq1_dcount
  · have hb' : server.is_busy = false := by simpa using hb
    have htdep0 : st.clock ≤ ev.time + rng (st.rngIdx + 2) := by
      rw [← ht]
      exact le_add_of_nonneg_right (hr _)
    rw [handleArrival_immediate_eq cfg rng ev st idx server hidxdef hsrvdef hb' _ rfl]
    exact inv_after_immediate hI idx hidxlt server hs_get hb'
      _ ev.time rfl (le_refl _) ⟨_, rfl⟩ rfl _ rfl _ htdep0 _ _
      hq1_times hq1_dep hq1_count hq1_dcount

/-! ### Branch equations for `handle_departure` -/

theorem handleDeparture_busy_eq (rng : Nat → ℚ) (ev : Event) (st : SimState)
    (idx : Nat) (server : Server) (next : Request) (rest2 : List Request)
    (next1 : Request) (server1 : Server)
    (hidx : idx = ev.server_index.toNat)
    (hsrv : server = st.lb.servers.getD idx default)
    (hq : server.queue = next :: rest2)
    (hn1 : next1 =
      { next with
          service_start_time := some ev.time
          service_duration := some (rng st.rngIdx) })
    (hs1 : server1 =
      { server with
          queue := rest2
          current_request := some next1 }) :
    handleDeparture rng ev st =
      { st with
        eventQueue := ⟨ev.time + rng st.rngIdx, EventType.DEPARTURE,
          some next1, (server.id : Int)⟩ :: st.eventQueue
        lb := { st.lb with servers := st.lb.servers.set idx server1 }
        stats := st.stats.log_departure
          ((ev.payload.getD default).service_start_time.getD 0 -
            (ev.payload.getD default).arrival_time)
          ((ev.payload.getD default).service_duration.getD 0) ev.time
        rngIdx := st.rngIdx + 1 } := by
  subst hidx
  subst hsrv
  subst hn1
  subst hs1
  simp only [handleDeparture, hq]

theorem handleDeparture_idle_eq (rng : Nat → ℚ) (ev : Event) (st : SimState)
    (idx : Nat) (server : Server) (server1 : Server)
    (hidx : idx = ev.server_index.toNat)
    (hsrv : server = st.lb.servers.getD idx default)
    (hq : server.queue = [])
    (hs1 : server1 =
      { server with
          is_busy := false
          current_request := none }) :
    handleDeparture rng ev st =
      { st with
        lb := { st.lb with servers := st.lb.servers.set idx server1 }
        stats := st.stats.log_departure
          ((ev.payload.getD default).service_start_time.getD 0 -
            (ev.payload.getD default).arrival_time)
          ((ev.payload.getD default).service_duration.getD 0) ev.time } := by
  subst hidx
  subst hsrv
  subst hs1
  simp only [handleDeparture, hq]

/-! ### Invariant preservation through `handle_departure` -/

/-- Processing a popped Departure event preserves the invariant. -/
theorem handleDeparture_inv {cfg : SimulationConfig} {rng : Nat → ℚ}
    {ev : Event} {st0 : SimState} {rest : List Event}
    (hr : ∀ n, 0 ≤ rng n) (hI : Inv cfg st0)
    (hpop : popMin st0.eventQueue = some (ev, rest))
    (hdep : ev.event_type = EventType.DEPARTURE) :
    Inv cfg (handleDeparture rng ev
      { st0 with clock := ev.time, eventQueue := rest }) := by
  have hmemev : ev ∈ st0.eventQueue := popMin_mem hpop
  have hperm := popMin_perm hpop
  have hmin := popMin_min hpop
  have hclk : st0.clock ≤ ev.time := hI.times ev hmemev
  have hrest_mem : ∀ e ∈ rest, e ∈ st0.eventQueue := fun e he =>
    hperm.mem_iff.mpr (List.mem_cons_of_mem _ he)
  have hrest_times : ∀ e ∈ rest, ev.time ≤ e.time := fun e he =>
    hmin e (hrest_mem e he)
  obtain ⟨hsi0, hsilt, r0, ts0, d0, hpayload, hstart, harr, hdur⟩ :=
    hI.dep_ok ev hmemev hdep
  set idx := ev.server_index.toNat with hidxdef
  set server := st0.lb.servers.getD idx default with hsrvdef
  have hs_get : server = st0.lb.servers.get ⟨idx, hsilt⟩ := by
    rw [hsrvdef, List.get_eq_getElem, List.getD_eq_getElem _ _ hsilt]
  have hsmem : server ∈ st0.lb.servers := by
    rw [hs_get]
    exact List.get_mem _ _ _
  have hsid : server.id = idx := by
    rw [hs_get]
    exact hI.sid idx hsilt
  have hpt_ev : isDepFor idx ev = true := by
    simp [isDepFor, hdep, Int.toNat_of_nonneg hsi0]
  have hcountQ_true : ∀ p : Event → Bool, p ev = true →
      st0.eventQueue.countP p = rest.countP p + 1 := by
    intro p hp
    rw [hperm.countP_eq p, List.countP_cons, hp]
    simp
  have hcountQ_false : ∀ p : Event → Bool, p ev = false →
      st0.eventQueue.countP p = rest.countP p := by
    intro p hp
    rw [hperm.countP_eq p, List.countP_cons, hp]
    simp
  have hbusy : server.is_busy = true := by
    have hpos : 0 < st0.eventQueue.countP (isDepFor idx) :=
      List.countP_pos.mpr ⟨ev, hmemev, hpt_ev⟩
    have hd0 := hI.dep_count idx hsilt
    rw [← hs_get] at hd0
    rw [hd0] at hpos
    cases hbb : server.is_busy
    · rw [hbb] at hpos
      simp at hpos
    · rfl
  have hcnt_rest_idx : rest.countP (isDepFor idx) = 0 := by
    have h1 := hcountQ_true (isDepFor idx) hpt_ev
    have hd0 := hI.dep_count idx hsilt
    rw [← hs_get, hbusy] at hd0
    simp only [if_true] at hd0
    omega
  have hcnt_rest_ne : ∀ j, j ≠ idx →
      rest.countP (isDepFor j) = st0.eventQueue.countP (isDepFor j) := by
    intro j hj
    have hfalse : isDepFor j ev = false := by
      simp only [isDepFor, Bool.and_eq_false_iff]
      right
      simp only [decide_eq_false_iff_not]
      intro hcontra
      apply hj
      rw [hidxdef, hcontra, Int.toNat_natCast]
    exact (hcountQ_false (isDepFor j) hfalse).symm
  have hdcount_rest : rest.countP isDep + 1 = st0.eventQueue.countP isDep := by
    rw [hcountQ_true isDep (by simp [isDep, hdep])]
  cases hqcase : server.queue with
  | cons next rest2 =>
    have hnext_mem : next ∈ server.queue := by
      rw [hqcase]
      exact List.mem_cons_self _ _
    obtain ⟨hn_start, hn_dur, hn_arr, hn_id⟩ :=
      hI.queued_fresh server hsmem next hnext_mem
    rw [handleDeparture_busy_eq rng ev
      { st0 with clock := ev.time, eventQueue := rest } idx server next rest2
      ({ next with
          service_start_time := some ev.time
          service_duration := some (rng st0.rngIdx) })
      ({ server with
          queue := rest2
          current_request := some ({ next with
            service_start_time := some ev.time
            service_duration := some (rng st0.rngIdx) }) })
      hidxdef hsrvdef hqcase rfl rfl]
    simp only []
    refine ⟨hI.probs_eq, ?_, ?_, ?_, ?_, ?_, ?_, ?_, ?_, ?_, ?_, ?_⟩
    · show (st0.lb.servers.set idx _).length = cfg.server_count
      rw [List.length_set]
      exact hI.len_eq
    · intro i h
      have hl : i < st0.lb.servers.length := by simpa using h
      show ((st0.lb.servers.set idx _).get ⟨i, h⟩).id = i
      rw [List.get_eq_getElem]
      rcases eq_or_ne idx i with rfl | hne
      · rw [List.getElem_set_self]
        exact hsid
      · rw [List.getElem_set_ne hne]
        have := hI.sid i hl
        rw [List.get_eq_getElem] at this
        exact this
    · intro s hmem
      rcases List.mem_or_eq_of_mem_set hmem with hold | rfl
      · exact hI.cap s hold
      · show ((rest2.length : Int)) ≤ server.max_queue_size
        have := hI.cap server hsmem
        rw [hqcase] at this
        simp only [List.length_cons] at this
        push_cast at this ⊢
        omega
    · intro s hmem
      rcases List.mem_or_eq_of_mem_set hmem with hold | rfl
      · exact hI.busy_iff s hold
      · show (some _).isSome = server.is_busy
        rw [hbusy]
        rfl
    · intro s hmem
      rcases List.mem_or_eq_of_mem_set hmem with hold | rfl
      · exact hI.queue_busy s hold
      · intro _
        exact hbusy
    · intro s hmem r hrq
      rcases List.mem_or_eq_of_mem_set hmem with hold | rfl
      · obtain ⟨h1, h2, h3, h4⟩ := hI.queued_fresh s hold r hrq
        exact ⟨h1, h2, le_trans h3 hclk, h4⟩
      · have hrq2 : r ∈ server.queue := by
          rw [hqcase]
          exact List.mem_cons_of_mem _ hrq
        obtain ⟨h1, h2, h3, h4⟩ := hI.queued_fresh server hsmem r hrq2
        exact ⟨h1, h2, le_trans h3 hclk, h4⟩
    · intro s hmem r hcur
      rcases List.mem_or_eq_of_mem_set hmem with hold | rfl
      · exact hI.cur_id s hold r hcur
      · simp only [Option.some.injEq] at hcur
        subst hcur
        show next.id < st0.stats.arrival_counter
        exact hn_id
    · intro e he
      rcases List.mem_cons.mp he with rfl | he2
      · show ev.time ≤ ev.time + rng _
        exact le_add_of_nonneg_right (hr _)
      · exact hrest_times e he2
    · intro e he hd2
      rcases List.mem_cons.mp he with rfl | he2
      · refine ⟨by positivity, ?_, ?_⟩
        · show ((server.id : Int)).toNat < (st0.lb.servers.set idx _).length
          rw [List.length_set, Int.toNat_natCast, hsid]
          exact hsilt
        · exact ⟨_, ev.time, rng st0.rngIdx, rfl, rfl, le_trans hn_arr hclk, rfl⟩
      · obtain ⟨h1, h2, h3⟩ := hI.dep_ok e (hrest_mem e he2) hd2
        refine ⟨h1, ?_, h3⟩
        show e.server_index.toNat < (st0.lb.servers.set idx _).length
        rw [List.length_set]
        exact h2
    · intro i h
      have hl : i < st0.lb.servers.length := by simpa using h
      rw [List.countP_cons]
      show rest.countP (isDepFor i) + _ =
        if ((st0.lb.servers.set idx _).get ⟨i, h⟩).is_busy then 1 else 0
      rw [List.get_eq_getElem]
      rcases eq_or_ne idx i with rfl | hne
      · rw [List.getElem_set_self, hcnt_rest_idx]
        have hp1 : ∀ pl : Option Request, isDepFor idx
            (⟨ev.time + rng st0.rngIdx, EventType.DEPARTURE, pl,
              (server.id : Int)⟩ : Event) = true := by
          intro pl
          simp [isDepFor, hsid]
        rw [hp1]
        simp [hbusy]
      · rw [List.getElem_set_ne hne]
        have hp0 : ∀ pl : Option Request, isDepFor i
            (⟨ev.time + rng st0.rngIdx, EventType.DEPARTURE, pl,
              (server.id : Int)⟩ : Event) = false := by
          intro pl
          simp only [isDepFor, Bool.and_eq_false_iff]
          right
          simp only [decide_eq_false_iff_not]
          rw [hsid]
          intro hcontra
          exact hne (Int.natCast_inj.mp hcontra)
        rw [hp0, hcnt_rest_ne i (fun hji => hne hji.symm)]
        have hd0 := hI.dep_count i hl
        rw [List.get_eq_getElem] at hd0
        rw [hd0]
        simp
    · show st0.stats.arrival_counter =
        (st0.stats.served_requests + 1) + st0.stats.dropped_requests +
          queueTotal (st0.lb.servers.set idx _) +
          List.countP isDep (⟨ev.time + rng st0.rngIdx, EventType.DEPARTURE,
            some _, (server.id : Int)⟩ :: rest)
      have hqt : queueTotal (st0.lb.servers.set idx
          ({ server with
              queue := rest2
              current_request := some ({ next with
                service_start_time := some ev.time
                service_duration := some (rng st0.rngIdx) }) })) +
          server.queue.length = queueTotal st0.lb.servers + rest2.length := by
        have h0 := sum_map_set (fun s => s.queue.length) default
          st0.lb.servers idx hsilt
          ({ server with
              queue := rest2
              current_request := some ({ next with
                service_start_time := some ev.time
                service_duration := some (rng st0.rngIdx) }) })
        rw [← hsrvdef] at h0
        unfold queueTotal
        simpa using h0
      rw [List.countP_cons]
      have hdep1 : isDep (⟨ev.time + rng st0.rngIdx, EventType.DEPARTURE,
          some ({ next with
            service_start_time := some ev.time
            service_duration := some (rng st0.rngIdx) }),
          (server.id : Int)⟩ : Event) = true := by
        simp [isDep]
      rw [if_pos hdep1]
      have hql : server.queue.length = rest2.length + 1 := by
        rw [hqcase]
        simp
      have hcv := hI.conserve
      omega
  | nil =>
    rw [handleDeparture_idle_eq rng ev
      { st0 with clock := ev.time, eventQueue := rest } idx server
      ({ server with
          is_busy := false
          current_request := none })
      hidxdef hsrvdef hqcase rfl]
    simp only []
    refine ⟨hI.probs_eq, ?_, ?_, ?_, ?_, ?_, ?_, ?_, ?_, ?_, ?_, ?_⟩
    · show (st0.lb.servers.set idx _).length = cfg.server_count
      rw [List.length_set]
      exact hI.len_eq
    · intro i h
      have hl : i < st0.lb.servers.length := by simpa using h
      show ((st0.lb.servers.set idx _).get ⟨i, h⟩).id = i
      rw [List.get_eq_getElem]
      rcases eq_or_ne idx i with rfl | hne
      · rw [List.getElem_set_self]
        exact hsid
      · rw [List.getElem_set_ne hne]
        have := hI.sid i hl
        rw [List.get_eq_getElem] at this
        exact this
    · intro s hmem
      rcases List.mem_or_eq_of_mem_set hmem with hold | rfl
      · exact hI.cap s hold
      · show ((server.queue.length : Int)) ≤ server.max_queue_size
        exact hI.cap server hsmem
    · intro s hmem
      rcases List.mem_or_eq_of_mem_set hmem with hold | rfl
      · exact hI.busy_iff s hold
      · rfl
    · intro s hmem
      rcases List.mem_or_eq_of_mem_set hmem with hold | rfl
      · exact hI.queue_busy s hold
      · intro hne
        exact absurd hqcase hne
    · intro s hmem r hrq
      rcases List.mem_or_eq_of_mem_set hmem with hold | rfl
      · obtain ⟨h1, h2, h3, h4⟩ := hI.queued_fresh s hold r hrq
        exact ⟨h1, h2, le_trans h3 hclk, h4⟩
      · have hrq2 : r ∈ server.queue := hrq
        rw [hqcase] at hrq2
        exact absurd hrq2 (List.not_mem_nil r)
    · intro s hmem r hcur
      rcases List.mem_or_eq_of_mem_set hmem with hold | rfl
      · exact hI.cur_id s hold r hcur
      · exact absurd hcur (by simp)
    · intro e he
      exact hrest_times e he
    · intro e he hd2
      obtain ⟨h1, h2, h3⟩ := hI.dep_ok e (hrest_mem e he) hd2
      refine ⟨h1, ?_, h3⟩
      show e.server_index.toNat < (st0.lb.servers.set idx _).length
      rw [List.length_set]
      exact h2
    · intro i h
      have hl : i < st0.lb.servers.length := by simpa using h
      show rest.countP (isDepFor i) =
        if ((st0.lb.servers.set idx _).get ⟨i, h⟩).is_busy then 1 else 0
      rw [List.get_eq_getElem]
      rcases eq_or_ne idx i with rfl | hne
      · rw [List.getElem_set_self, hcnt_rest_idx]
        rfl
      · rw [List.getElem_set_ne hne]
        rw [hcnt_rest_ne i (fun hji => hne hji.symm)]
        have hd0 := hI.dep_count i hl
        rw [List.get_eq_getElem] at hd0
        exact hd0
    · show st0.stats.arrival_counter =
        (st0.stats.served_requests + 1) + st0.stats.dropped_requests +
          queueTotal (st0.lb.servers.set idx _) + rest.countP isDep
      have hqt : queueTotal (st0.lb.servers.set idx
          ({ server with
              is_busy := false
              current_request := none })) + server.queue.length =
          queueTotal st0.lb.servers + server.queue.length := by
        have h0 := sum_map_set (fun s => s.queue.length) default
          st0.lb.servers idx hsilt
          ({ server with
              is_busy := false
              current_request := none })
        rw [← hsrvdef] at h0
        unfold queueTotal
        simpa using h0
      have hcv := hI.conserve
      omega

/-! ### The invariant holds in every reachable state -/

theorem stepSim_inv {cfg : SimulationConfig} {rng : Nat → ℚ}
    {st st' : SimState} (hc : CfgOK cfg) (hr : ∀ n, 0 ≤ rng n)
    (hI : Inv cfg st) (h : stepSim cfg rng st = some st') : Inv cfg st' := by
  cases hpop : popMin st.eventQueue with
  | none =>
    unfold stepSim at h
    rw [hpop] at h
    exact absurd h (by simp)
  | some p =>
    obtain ⟨ev, rest⟩ := p
    have hstep : stepSim cfg rng st =
        (match ev.event_type with
          | EventType.ARRIVAL => some (handleArrival cfg rng ev
              { st with clock := ev.time, eventQueue := rest })
          | EventType.DEPARTURE => some (handleDeparture rng ev
              { st with clock := ev.time, eventQueue := rest })
          | EventType.STOP =>
              some { st with clock := ev.time, eventQueue := rest }) := by
      unfold stepSim
      rw [hpop]
    rw [hstep] at h
    cases hty : ev.event_type with
    | ARRIVAL =>
      rw [hty] at h
      obtain rfl := by simpa using h
      exact handleArrival_inv hc hr (pop_inv hI hpop (by simp [hty])) rfl
    | DEPARTURE =>
      rw [hty] at h
      obtain rfl := by simpa using h
      exact handleDeparture_inv hr hI hpop hty
    | STOP =>
      rw [hty] at h
      obtain rfl := by simpa using h
      exact pop_inv hI hpop (by simp [hty])

theorem runSim_inv (cfg : SimulationConfig) (rng : Nat → ℚ) (hc : CfgOK cfg)
    (hr : ∀ n, 0 ≤ rng n) :
    ∀ (n : Nat) (st : SimState), Inv cfg st → Inv cfg (runSim cfg rng n st)
  | 0, st, hI => hI
  | n + 1, st, hI => by
    rw [runSim]
    cases hstep : stepSim cfg rng st with
    | none => exact hI
    | some st1 =>
      exact runSim_inv cfg rng hc hr n st1 (stepSim_inv hc hr hI hstep)

/-- Any state reached by the driver loop from the initial state of a
configuration accepted by `parse_args` satisfies the invariant. -/
theorem reachable_inv {args : List ℚ} {cfg : SimulationConfig}
    (hp : parse_args args = some cfg) (rng : Nat → ℚ)
    (hr : ∀ n, 0 ≤ rng n) (n : Nat) :
    Inv cfg (runSim cfg rng n (initState cfg rng)) :=
  runSim_inv cfg rng (parse_args_sound hp) hr n _
    (init_inv cfg rng (parse_args_sound hp) hr)

/-! ### Small frame lemmas about the handlers -/

theorem handleArrival_clock (cfg : SimulationConfig) (rng : Nat → ℚ)
    (ev : Event) (st : SimState) :
    (handleArrival cfg rng ev st).clock = st.clock := by
  simp only [handleArrival]
  split
  · rfl
  · split <;> rfl

theorem handleDeparture_clock (rng : Nat → ℚ) (ev : Event) (st : SimState) :
    (handleDeparture rng ev st).clock = st.clock := by
  simp only [handleDeparture]
  split <;> rfl

theorem handleArrival_wait (cfg : SimulationConfig) (rng : Nat → ℚ)
    (ev : Event) (st : SimState) :
    (handleArrival cfg rng ev st).stats.total_wait_time =
      st.stats.total_wait_time := by
  simp only [handleArrival]
  split
  · rfl
  · split <;> rfl

/-! ### Claim theorems -/

/-- Claim C1: in every reachable state of a run (a driver loop started from
the initial state of a configuration accepted by `parse_args`, with
non-negative exponential samples), every server's waiting-queue length is
at most its configured maximum queue capacity, and its `current_request`
is present exactly when its busy flag is set. -/
theorem claim_C1_server_invariants (args : List ℚ) {cfg : SimulationConfig}
    (hp : parse_args args = some cfg) (rng : Nat → ℚ)
    (hr : ∀ k, 0 ≤ rng k) (n : Nat) :
    ∀ s ∈ (runSim cfg rng n (initState cfg rng)).lb.servers,
      (s.queue.length : Int) ≤ s.max_queue_size ∧
        (s.current_request.isSome = true ↔ s.is_busy = true) := by
  intro s hs
  have hI := reachable_inv hp rng hr n
  refine ⟨hI.cap s hs, ?_⟩
  rw [hI.busy_iff s hs]

/-- Witness for C1 at a concrete parsed configuration, constant sample
stream and three driver steps. -/
theorem claim_C1_witness :
    parse_args [0, 100, 1, 1, 2, 2, 3] =
      some ⟨100, 1, [1], 2, [2], [3]⟩ ∧
    (∀ s ∈ (runSim ⟨100, 1, [1], 2, [2], [3]⟩ (fun _ => 1) 3
        (initState ⟨100, 1, [1], 2, [2], [3]⟩ (fun _ => 1))).lb.servers,
      (s.queue.length : Int) ≤ s.max_queue_size ∧
        (s.current_request.isSome = true ↔ s.is_busy = true)) :=
  ⟨by norm_num [parse_args, toInt?, listToInts?],
    claim_C1_server_invariants [0, 100, 1, 1, 2, 2, 3]
      (by norm_num [parse_args, toInt?, listToInts?]) _ (fun _ => by norm_num) 3⟩

/-- Claim C2: in a terminated run (the event queue is empty), the served
count plus the dropped count equals the number of request ids issued. -/
theorem claim_C2_conservation (args : List ℚ) {cfg : SimulationConfig}
    (hp : parse_args args = some cfg) (rng : Nat → ℚ)
    (hr : ∀ k, 0 ≤ rng k) (n : Nat)
    (hterm : (runSim cfg rng n (initState cfg rng)).eventQueue = []) :
    (runSim cfg rng n (initState cfg rng)).stats.served_requests +
      (runSim cfg rng n (initState cfg rng)).stats.dropped_requests =
      (runSim cfg rng n (initState cfg rng)).stats.arrival_counter := by
  have hI := reachable_inv hp rng hr n
  set st := runSim cfg rng n (initState cfg rng) with hstdef
  have hqt : queueTotal st.lb.servers = 0 := by
    unfold queueTotal
    apply List.sum_eq_zero
    intro x hx
    simp only [List.mem_map] at hx
    obtain ⟨s, hs, rfl⟩ := hx
    obtain ⟨i, hi, hgi⟩ := List.mem_iff_getElem.mp hs
    have hd := hI.dep_count i hi
    rw [hterm] at hd
    simp only [List.countP_nil] at hd
    rw [List.get_eq_getElem, hgi] at hd
    have hnb : s.is_busy = false := by
      cases hbb : s.is_busy
      · rfl
      · rw [hbb] at hd
        simp at hd
    have hqe : s.queue = [] := by
      by_contra hne
      rw [hI.queue_busy s hs hne] at hnb
      exact absurd hnb (by simp)
    rw [hqe]
    rfl
  have hcv := hI.conserve
  rw [hterm] at hcv
  simp only [List.countP_nil] at hcv
  omega

/-- Witness for C2: a run whose horizon is below the first inter-arrival
sample generates no events, so it terminates with 0 = 0 + 0. -/
theorem claim_C2_witness :
    parse_args [0, 1, 1, 1, 2, 0, 3] = some ⟨1, 1, [1], 2, [0], [3]⟩ ∧
    (runSim ⟨1, 1, [1], 2, [0], [3]⟩ (fun _ => 5) 0
      (initState ⟨1, 1, [1], 2, [0], [3]⟩ (fun _ => 5))).eventQueue = [] ∧
    (runSim ⟨1, 1, [1], 2, [0], [3]⟩ (fun _ => 5) 0
      (initState ⟨1, 1, [1], 2, [0], [3]⟩ (fun _ => 5))).stats.served_requests +
      (runSim ⟨1, 1, [1], 2, [0], [3]⟩ (fun _ => 5) 0
        (initState ⟨1, 1, [1], 2, [0], [3]⟩ (fun _ => 5))).stats.dropped_requests =
      (runSim ⟨1, 1, [1], 2, [0], [3]⟩ (fun _ => 5) 0
        (initState ⟨1, 1, [1], 2, [0], [3]⟩ (fun _ => 5))).stats.arrival_counter :=
  ⟨by norm_num [parse_args, toInt?, listToInts?],
    by norm_num [runSim, initState],
    claim_C2_conservation [0, 1, 1, 1, 2, 0, 3]
      (by norm_num [parse_args, toInt?, listToInts?]) _ (fun _ => by norm_num) 0
      (by norm_num [runSim, initState])⟩

/-- Claim C3: whenever the driver loop pops and processes another event
from a reachable state, the global clock does not move backwards: the
sequence of processed event times is non-decreasing. -/
theorem claim_C3_clock_monotone (args : List ℚ) {cfg : SimulationConfig}
    (hp : parse_args args = some cfg) (rng : Nat → ℚ) (hr : ∀ k, 0 ≤ rng k)
    (n : Nat) (st' : SimState)
    (hstep : stepSim cfg rng (runSim cfg rng n (initState cfg rng)) = some st') :
    (runSim cfg rng n (initState cfg rng)).clock ≤ st'.clock := by
  have hI := reachable_inv hp rng hr n
  set st := runSim cfg rng n (initState cfg rng) with hstdef
  cases hpop : popMin st.eventQueue with
  | none =>
    unfold stepSim at hstep
    rw [hpop] at hstep
    exact absurd hstep (by simp)
  | some p =>
    obtain ⟨ev, rest⟩ := p
    have hle : st.clock ≤ ev.time := hI.times ev (popMin_mem hpop)
    have heq : stepSim cfg rng st =
        (match ev.event_type with
          | EventType.ARRIVAL => some (handleArrival cfg rng ev
              { st with clock := ev.time, eventQueue := rest })
          | EventType.DEPARTURE => some (handleDeparture rng ev
              { st with clock := ev.time, eventQueue := rest })
          | EventType.STOP =>
              some { st with clock := ev.time, eventQueue := rest }) := by
      unfold stepSim
      rw [hpop]
    rw [heq] at hstep
    cases hty : ev.event_type with
    | ARRIVAL =>
      rw [hty] at hstep
      obtain rfl := by simpa using hstep
      rw [handleArrival_clock]
      exact hle
    | DEPARTURE =>
      rw [hty] at hstep
      obtain rfl := by simpa using hstep
      rw [handleDeparture_clock]
      exact hle
    | STOP =>
      rw [hty] at hstep
      obtain rfl := by simpa using hstep
      exact hle

/-- Witness for C3 at a concrete step of a concrete run. -/
theorem claim_C3_witness :
    stepSim ⟨100, 1, [1], 2, [2], [3]⟩ (fun _ => 1)
        (runSim ⟨100, 1, [1], 2, [2], [3]⟩ (fun _ => 1) 0
          (initState ⟨100, 1, [1], 2, [2], [3]⟩ (fun _ => 1))) =
      some ⟨1,
        [⟨2, EventType.DEPARTURE, some ⟨0, 1, some 1, some 1⟩, 0⟩,
         ⟨2, EventType.ARRIVAL, none, -1⟩],
        ⟨[⟨0, 3, 2, true, [], some ⟨0, 1, some 1, some 1⟩⟩], [1]⟩,
        ⟨0, 0, 0, 0, 0, 1⟩, 4⟩ ∧
    (runSim ⟨100, 1, [1], 2, [2], [3]⟩ (fun _ => 1) 0
      (initState ⟨100, 1, [1], 2, [2], [3]⟩ (fun _ => 1))).clock ≤
      (⟨1,
        [⟨2, EventType.DEPARTURE, some ⟨0, 1, some 1, some 1⟩, 0⟩,
         ⟨2, EventType.ARRIVAL, none, -1⟩],
        ⟨[⟨0, 3, 2, true, [], some ⟨0, 1, some 1, some 1⟩⟩], [1]⟩,
        ⟨0, 0, 0, 0, 0, 1⟩, 4⟩ : SimState).clock :=
  ⟨by norm_num [runSim, initState, initServers, stepSim, popMin, handleArrival,
      chooseIndex, chooseFrom, Server.add_request, StatsCollector.init,
      List.range_succ, List.set_cons_zero],
    claim_C3_clock_monotone [0, 100, 1, 1, 2, 2, 3]
      (by norm_num [parse_args, toInt?, listToInts?]) _ (fun _ => by norm_num) 0 _
      (by norm_num [runSim, initState, initServers, stepSim, popMin, handleArrival,
        chooseIndex, chooseFrom, Server.add_request, StatsCollector.init,
        List.range_succ, List.set_cons_zero])⟩

/-- Claim C4: processing a Departure at a server with a non-empty queue
dequeues the FIFO head, makes it `current_request` with its service-start
time stamped to the current time and its duration drawn from the stream
at that moment (the cursor advances by exactly one), and pushes a
Departure for it at current time plus that duration; with an empty queue
the busy flag and `current_request` are cleared and nothing is pushed.
In every reachable state, queued requests carry no precomputed
service-start or duration. -/
theorem claim_C4_departure_service :
    (∀ (rng : Nat → ℚ) (ev : Event) (st : SimState) (next : Request)
        (rest2 : List Request),
      (st.lb.servers.getD ev.server_index.toNat default).queue = next :: rest2 →
      ((handleDeparture rng ev st).lb.servers.getD ev.server_index.toNat
          default).queue = rest2 ∧
      ((handleDeparture rng ev st).lb.servers.getD ev.server_index.toNat
          default).current_request =
        some ⟨next.id, next.arrival_time, some ev.time, some (rng st.rngIdx)⟩ ∧
      (handleDeparture rng ev st).eventQueue =
        (⟨ev.time + rng st.rngIdx, EventType.DEPARTURE,
          some ⟨next.id, next.arrival_time, some ev.time, some (rng st.rngIdx)⟩,
          ((st.lb.servers.getD ev.server_index.toNat default).id : Int)⟩ : Event) ::
          st.eventQueue ∧
      (handleDeparture rng ev st).rngIdx = st.rngIdx + 1) ∧
    (∀ (rng : Nat → ℚ) (ev : Event) (st : SimState),
      (st.lb.servers.getD ev.server_index.toNat default).queue = [] →
      ((handleDeparture rng ev st).lb.servers.getD ev.server_index.toNat
          default).is_busy = false ∧
      ((handleDeparture rng ev st).lb.servers.getD ev.server_index.toNat
          default).current_request = none ∧
      (handleDeparture rng ev st).eventQueue = st.eventQueue ∧
      (handleDeparture rng ev st).rngIdx = st.rngIdx) ∧
    (∀ (args : List ℚ) (cfg : SimulationConfig) (rng : Nat → ℚ) (n : Nat),
      parse_args args = some cfg → (∀ k, 0 ≤ rng k) →
      ∀ s ∈ (runSim cfg rng n (initState cfg rng)).lb.servers,
        ∀ r ∈ s.queue,
          r.service_start_time = none ∧ r.service_duration = none) := by
  refine ⟨?_, ?_, ?_⟩
  · intro rng ev st next rest2 hq
    by_cases hlt : ev.server_index.toNat < st.lb.servers.length
    · rw [handleDeparture_busy_eq rng ev st ev.server_index.toNat
        (st.lb.servers.getD ev.server_index.toNat default) next rest2
        ⟨next.id, next.arrival_time, some ev.time, some (rng st.rngIdx)⟩
        _ rfl rfl hq rfl rfl]
      simp only []
      have hgets : ∀ (X : Server),
          (st.lb.servers.set ev.server_index.toNat X).getD
            ev.server_index.toNat default = X := by
        intro X
        rw [List.getD_eq_getElem _ _ (by rw [List.length_set]; exact hlt),
          List.getElem_set_self]
      rw [hgets]
      refine ⟨?_, ?_, ?_, ?_⟩ <;> trivial
    · exact absurd
        (by rw [List.getD_eq_default _ _ (le_of_not_lt hlt)] at hq; exact hq)
        (by simp)
  · intro rng ev st hq
    by_cases hlt : ev.server_index.toNat < st.lb.servers.length
    · rw [handleDeparture_idle_eq rng ev st ev.server_index.toNat
        (st.lb.servers.getD ev.server_index.toNat default) _ rfl rfl hq rfl]
      simp only []
      have hgets : ∀ (X : Server),
          (st.lb.servers.set ev.server_index.toNat X).getD
            ev.server_index.toNat default = X := by
        intro X
        rw [List.getD_eq_getElem _ _ (by rw [List.length_set]; exact hlt),
          List.getElem_set_self]
      rw [hgets]
      refine ⟨?_, ?_, ?_, ?_⟩ <;> trivial
    · rw [handleDeparture_idle_eq rng ev st ev.server_index.toNat
        (st.lb.servers.getD ev.server_index.toNat default) _ rfl rfl hq rfl]
      simp only []
      rw [List.set_eq_of_length_le (le_of_not_lt hlt),
        List.getD_eq_default _ _ (le_of_not_lt hlt)]
      refine ⟨?_, ?_, ?_, ?_⟩ <;> trivial
  · intro args cfg rng n hp hr s hs r hrq
    obtain ⟨h1, h2, _, _⟩ := (reachable_inv hp rng hr n).queued_fresh s hs r hrq
    exact ⟨h1, h2⟩

/-- Witness for C4 at a concrete server state with one queued request. -/
theorem claim_C4_witness :
    ((⟨0, [], ⟨[⟨0, 3, 2, true, [⟨7, 4, none, none⟩],
        some ⟨6, 2, some 2, some 1⟩⟩], [1]⟩, ⟨0, 0, 0, 0, 0, 8⟩, 0⟩ :
      SimState).lb.servers.getD
        ((⟨5, EventType.DEPARTURE, some ⟨6, 2, some 2, some 1⟩, 0⟩ :
          Event).server_index.toNat) default).queue = [⟨7, 4, none, none⟩] ∧
    ((handleDeparture (fun _ => 1)
        ⟨5, EventType.DEPARTURE, some ⟨6, 2, some 2, some 1⟩, 0⟩
        ⟨0, [], ⟨[⟨0, 3, 2, true, [⟨7, 4, none, none⟩],
          some ⟨6, 2, some 2, some 1⟩⟩], [1]⟩,
          ⟨0, 0, 0, 0, 0, 8⟩, 0⟩).lb.servers.getD 0 default).queue = [] ∧
    ((handleDeparture (fun _ => 1)
        ⟨5, EventType.DEPARTURE, some ⟨6, 2, some 2, some 1⟩, 0⟩
        ⟨0, [], ⟨[⟨0, 3, 2, true, [⟨7, 4, none, none⟩],
          some ⟨6, 2, some 2, some 1⟩⟩], [1]⟩,
          ⟨0, 0, 0, 0, 0, 8⟩, 0⟩).lb.servers.getD 0
        default).current_request = some ⟨7, 4, some 5, some 1⟩ := by
  have h := claim_C4_departure_service.1 (fun _ => 1)
    ⟨5, EventType.DEPARTURE, some ⟨6, 2, some 2, some 1⟩, 0⟩
    ⟨0, [], ⟨[⟨0, 3, 2, true, [⟨7, 4, none, none⟩],
      some ⟨6, 2, some 2, some 1⟩⟩], [1]⟩, ⟨0, 0, 0, 0, 0, 8⟩, 0⟩
    ⟨7, 4, none, none⟩ [] rfl
  exact ⟨rfl, h.1, h.2.1⟩

/-- Claim C5 (counterexample): the event ordering of `events.py` compares
by time only; two distinct events carrying the same time are mutually
incomparable, so no secondary key orders them. -/
theorem claim_C5_counterexample :
    ¬ Event.lt ⟨1, EventType.ARRIVAL, none, -1⟩
        ⟨1, EventType.DEPARTURE, none, 0⟩ ∧
    ¬ Event.lt ⟨1, EventType.DEPARTURE, none, 0⟩
        ⟨1, EventType.ARRIVAL, none, -1⟩ ∧
    (⟨1, EventType.ARRIVAL, none, -1⟩ : Event) ≠
      ⟨1, EventType.DEPARTURE, none, 0⟩ := by
  refine ⟨?_, ?_, ?_⟩
  · show ¬ ((1 : ℚ) < 1)
    norm_num
  · show ¬ ((1 : ℚ) < 1)
    norm_num
  · intro h
    exact absurd (congrArg Event.event_type h) (by simp)

/-- Claim C5 (amended): `Event.__lt__` orders events by scheduled time
alone; there is no secondary key, so the pop order of equal-time events is
left to the heap's internal structure. -/
theorem claim_C5_time_only_ordering (a b : Event) :
    Event.lt a b ↔ a.time < b.time :=
  Iff.rfl

/-- Claim C6 (counterexample): `parse_args` accepts a configuration whose
arrival rate is negative — rates are not validated. -/
theorem claim_C6_counterexample :
    parse_args [0, 10, 1, 1, -2, 5, 3] = some ⟨10, 1, [1], -2, [5], [3]⟩ ∧
    ((⟨10, 1, [1], -2, [5], [3]⟩ : SimulationConfig).arrival_rate < 0) :=
  ⟨by norm_num [parse_args, toInt?, listToInts?], by norm_num⟩

/-- Claim C6 (amended): every configuration accepted by `parse_args`
satisfies exactly the checks the parser performs — positive server count,
per-server lists of matching length, probabilities summing to 1 within
`1e-5`, non-negative queue sizes — and these rejections happen before any
simulation state is built; no positivity check is made on the arrival or
service rates. -/
theorem claim_C6_validation_sound (args : List ℚ) {cfg : SimulationConfig}
    (hp : parse_args args = some cfg) :
    1 ≤ cfg.server_count ∧
    cfg.probabilities.length = cfg.server_count ∧
    cfg.queue_sizes.length = cfg.server_count ∧
    cfg.service_rates.length = cfg.server_count ∧
    (∀ q ∈ cfg.queue_sizes, 0 ≤ q) ∧
    |cfg.probabilities.sum - 1| ≤ 1 / 100000 := by
  obtain ⟨a, b, c, d, e, f⟩ := parse_args_sound hp
  exact ⟨a, b, c, d, e, f⟩

/-- Witness for the amended C6 at a concrete argv. -/
theorem claim_C6_witness :
    parse_args [0, 100, 1, 1, 2, 2, 3] = some ⟨100, 1, [1], 2, [2], [3]⟩ ∧
    (1 ≤ (⟨100, 1, [1], 2, [2], [3]⟩ : SimulationConfig).server_count ∧
      (⟨100, 1, [1], 2, [2], [3]⟩ : SimulationConfig).probabilities.length =
        (⟨100, 1, [1], 2, [2], [3]⟩ : SimulationConfig).server_count ∧
      (⟨100, 1, [1], 2, [2], [3]⟩ : SimulationConfig).queue_sizes.length =
        (⟨100, 1, [1], 2, [2], [3]⟩ : SimulationConfig).server_count ∧
      (⟨100, 1, [1], 2, [2], [3]⟩ : SimulationConfig).service_rates.length =
        (⟨100, 1, [1], 2, [2], [3]⟩ : SimulationConfig).server_count ∧
      (∀ q ∈ (⟨100, 1, [1], 2, [2], [3]⟩ : SimulationConfig).queue_sizes, 0 ≤ q) ∧
      |(⟨100, 1, [1], 2, [2], [3]⟩ : SimulationConfig).probabilities.sum - 1| ≤
        1 / 100000) :=
  ⟨by norm_num [parse_args, toInt?, listToInts?],
    claim_C6_validation_sound [0, 100, 1, 1, 2, 2, 3]
      (by norm_num [parse_args, toInt?, listToInts?])⟩

theorem handleArrival_arrivals (cfg : SimulationConfig) (rng : Nat → ℚ)
    (ev : Event) (st : SimState) :
    (handleArrival cfg rng ev st).eventQueue.filter isArr =
      (if ev.time + rng st.rngIdx < cfg.max_time then
        (⟨ev.time + rng st.rngIdx, EventType.ARRIVAL, none, -1⟩ : Event) ::
          st.eventQueue.filter isArr
      else st.eventQueue.filter isArr) := by
  simp only [handleArrival]
  split
  · split
    · rw [List.filter_cons_of_pos (by simp [isArr])]
    · rfl
  · split
    · rw [List.filter_cons_of_neg (by simp [isArr])]
      split
      · rw [List.filter_cons_of_pos (by simp [isArr])]
      · rfl
    · split
      · rw [List.filter_cons_of_pos (by simp [isArr])]
      · rfl

/-- Claim C7: processing an Arrival pushes the next Arrival at
`time + interval` exactly when that time is strictly below the horizon,
and the Arrival events produced do not depend on the balancer/statistics
state — so whether the next Arrival is scheduled never depends on whether
the current request is accepted or dropped. -/
theorem claim_C7_self_scheduling (cfg : SimulationConfig) (rng : Nat → ℚ)
    (ev : Event) (st st2 : SimState)
    (hq : st2.eventQueue = st.eventQueue) (hri : st2.rngIdx = st.rngIdx) :
    ((handleArrival cfg rng ev st).eventQueue.filter isArr =
      (if ev.time + rng st.rngIdx < cfg.max_time then
        (⟨ev.time + rng st.rngIdx, EventType.ARRIVAL, none, -1⟩ : Event) ::
          st.eventQueue.filter isArr
      else st.eventQueue.filter isArr)) ∧
    (handleArrival cfg rng ev st2).eventQueue.filter isArr =
      (handleArrival cfg rng ev st).eventQueue.filter isArr := by
  refine ⟨handleArrival_arrivals cfg rng ev st, ?_⟩
  rw [handleArrival_arrivals cfg rng ev st2, handleArrival_arrivals cfg rng ev st,
    hq, hri]

/-- Witness for C7: an idle-server state and a saturated-server state with
the same pending events and stream cursor schedule the same next Arrival
(the first accepts the request, the second drops it). -/
theorem claim_C7_witness :
    ((handleArrival ⟨10, 1, [1], 1, [0], [1]⟩ (fun _ => 1)
        ⟨0, EventType.ARRIVAL, none, -1⟩
        ⟨0, [], ⟨[⟨0, 1, 0, false, [], none⟩], [1]⟩,
          ⟨0, 0, 0, 0, 0, 0⟩, 0⟩).eventQueue.filter isArr =
      (if (0 : ℚ) + 1 < 10 then
        (⟨(0 : ℚ) + 1, EventType.ARRIVAL, none, -1⟩ : Event) ::
          ([] : List Event).filter isArr
      else ([] : List Event).filter isArr)) ∧
    (handleArrival ⟨10, 1, [1], 1, [0], [1]⟩ (fun _ => 1)
        ⟨0, EventType.ARRIVAL, none, -1⟩
        ⟨0, [], ⟨[⟨0, 1, 0, true, [], some ⟨0, 0, some 0, some 1⟩⟩], [1]⟩,
          ⟨0, 0, 0, 0, 0, 1⟩, 0⟩).eventQueue.filter isArr =
      (handleArrival ⟨10, 1, [1], 1, [0], [1]⟩ (fun _ => 1)
        ⟨0, EventType.ARRIVAL, none, -1⟩
        ⟨0, [], ⟨[⟨0, 1, 0, false, [], none⟩], [1]⟩,
          ⟨0, 0, 0, 0, 0, 0⟩, 0⟩).eventQueue.filter isArr :=
  claim_C7_self_scheduling ⟨10, 1, [1], 1, [0], [1]⟩ (fun _ => 1)
    ⟨0, EventType.ARRIVAL, none, -1⟩
    ⟨0, [], ⟨[⟨0, 1, 0, false, [], none⟩], [1]⟩, ⟨0, 0, 0, 0, 0, 0⟩, 0⟩
    ⟨0, [], ⟨[⟨0, 1, 0, true, [], some ⟨0, 0, some 0, some 1⟩⟩], [1]⟩,
      ⟨0, 0, 0, 0, 0, 1⟩, 0⟩ rfl rfl

theorem handleDeparture_wait (rng : Nat → ℚ) (ev : Event) (st : SimState) :
    (handleDeparture rng ev st).stats.total_wait_time =
      st.stats.total_wait_time +
        ((ev.payload.getD default).service_start_time.getD 0 -
          (ev.payload.getD default).arrival_time) := by
  simp only [handleDeparture]
  split <;> rfl

/-- Claim C8: in every reachable state, every pending Departure's payload
carries a service-start time at least its arrival time; hence the wait
time reported on any Departure step is non-negative (the running wait sum
never decreases), and a request that enters service immediately on
arrival is stamped with service-start equal to its arrival time (wait
exactly 0). -/
theorem claim_C8_wait_nonneg (args : List ℚ) {cfg : SimulationConfig}
    (hp : parse_args args = some cfg) (rng : Nat → ℚ) (hr : ∀ k, 0 ≤ rng k)
    (n : Nat) :
    (∀ e ∈ (runSim cfg rng n (initState cfg rng)).eventQueue,
      e.event_type = EventType.DEPARTURE →
      ∃ r ts, e.payload = some r ∧ r.service_start_time = some ts ∧
        r.arrival_time ≤ ts) ∧
    (∀ st', stepSim cfg rng (runSim cfg rng n (initState cfg rng)) = some st' →
      (runSim cfg rng n (initState cfg rng)).stats.total_wait_time ≤
        st'.stats.total_wait_time) ∧
    (∀ (cfg2 : SimulationConfig) (rng2 : Nat → ℚ) (ev : Event) (st : SimState),
      (st.lb.servers.getD (chooseIndex st.lb.probabilities (rng2 (st.rngIdx + 1)))
          default).is_busy = false →
      ∃ (r : Request) (q : List Event) (six : Int),
        (handleArrival cfg2 rng2 ev st).eventQueue =
          ⟨ev.time + rng2 (st.rngIdx + 2), EventType.DEPARTURE, some r, six⟩ :: q ∧
        r.service_start_time = some r.arrival_time) := by
  have hI := reachable_inv hp rng hr n
  set st := runSim cfg rng n (initState cfg rng) with hstdef
  refine ⟨?_, ?_, ?_⟩
  · intro e he hd
    obtain ⟨_, _, r, ts, d, h1, h2, h3, _⟩ := hI.dep_ok e he hd
    exact ⟨r, ts, h1, h2, h3⟩
  · intro st' hstep
    cases hpop : popMin st.eventQueue with
    | none =>
      unfold stepSim at hstep
      rw [hpop] at hstep
      exact absurd hstep (by simp)
    | some p =>
      obtain ⟨ev, rest⟩ := p
      have heq : stepSim cfg rng st =
          (match ev.event_type with
            | EventType.ARRIVAL => some (handleArrival cfg rng ev
                { st with clock := ev.time, eventQueue := rest })
            | EventType.DEPARTURE => some (handleDeparture rng ev
                { st with clock := ev.time, eventQueue := rest })
            | EventType.STOP =>
                some { st with clock := ev.time, eventQueue := rest }) := by
        unfold stepSim
        rw [hpop]
      rw [heq] at hstep
      cases hty : ev.event_type with
      | ARRIVAL =>
        rw [hty] at hstep
        obtain rfl := by simpa using hstep
        rw [handleArrival_wait]
      | DEPARTURE =>
        rw [hty] at hstep
        obtain rfl := by simpa using hstep
        rw [handleDeparture_wait]
        obtain ⟨_, _, r, ts, d, h1, h2, h3, _⟩ :=
          hI.dep_ok ev (popMin_mem hpop) hty
        rw [h1]
        simp only [Option.getD_some, h2]
        have : (0 : ℚ) ≤ ts - r.arrival_time := by linarith
        linarith
      | STOP =>
        rw [hty] at hstep
        obtain rfl := by simpa using hstep
        exact le_refl _
  · intro cfg2 rng2 ev st2 hb
    rw [handleArrival_immediate_eq cfg2 rng2 ev st2 _ _ rfl rfl hb _ rfl]
    exact ⟨⟨st2.stats.arrival_counter, ev.time, some ev.time,
      some (rng2 (st2.rngIdx + 2))⟩, _, _, rfl, rfl⟩

/-- Witness for C8 at a concrete parsed run. -/
theorem claim_C8_witness :
    parse_args [0, 100, 1, 1, 2, 2, 3] = some ⟨100, 1, [1], 2, [2], [3]⟩ ∧
    (∀ e ∈ (runSim ⟨100, 1, [1], 2, [2], [3]⟩ (fun _ => 1) 2
        (initState ⟨100, 1, [1], 2, [2], [3]⟩ (fun _ => 1))).eventQueue,
      e.event_type = EventType.DEPARTURE →
      ∃ r ts, e.payload = some r ∧ r.service_start_time = some ts ∧
        r.arrival_time ≤ ts) :=
  ⟨by norm_num [parse_args, toInt?, listToInts?],
    (claim_C8_wait_nonneg [0, 100, 1, 1, 2, 2, 3]
      (by norm_num [parse_args, toInt?, listToInts?]) _
      (fun _ => by norm_num) 2).1⟩

/-- Claim C9: two runs with identical configuration and identical sampled
random streams (the single seeded generator all draws come from) produce
identical report values for the same fuel. -/
theorem claim_C9_determinism (cfg1 cfg2 : SimulationConfig)
    (rng1 rng2 : Nat → ℚ) (fuel : Nat)
    (hcfg : cfg1 = cfg2) (hrng : rng1 = rng2) :
    (runSim cfg1 rng1 fuel (initState cfg1 rng1)).stats.report =
      (runSim cfg2 rng2 fuel (initState cfg2 rng2)).stats.report := by
  subst hcfg
  subst hrng
  rfl

/-- Witness for C9. -/
theorem claim_C9_witness :
    (runSim ⟨100, 1, [1], 2, [2], [3]⟩ (fun _ => 1) 5
        (initState ⟨100, 1, [1], 2, [2], [3]⟩ (fun _ => 1))).stats.report =
      (runSim ⟨100, 1, [1], 2, [2], [3]⟩ (fun _ => 1) 5
        (initState ⟨100, 1, [1], 2, [2], [3]⟩ (fun _ => 1))).stats.report :=
  claim_C9_determinism ⟨100, 1, [1], 2, [2], [3]⟩ ⟨100, 1, [1], 2, [2], [3]⟩
    (fun _ => 1) (fun _ => 1) 5 rfl rfl

/-- Claim C10 (counterexample): a dropped arrival does not leave the
StatsCollector changed only in its dropped counter — the request-id
counter also advances (the id was issued before routing), so the stats
after the drop differ from the claimed frame. -/
theorem claim_C10_counterexample :
    (handleArrival ⟨10, 1, [1], 1, [0], [1]⟩ (fun _ => 1)
        ⟨0, EventType.ARRIVAL, none, -1⟩
        ⟨0, [], ⟨[⟨0, 1, 0, true, [], some ⟨0, 0, some 0, some 1⟩⟩], [1]⟩,
          ⟨0, 0, 0, 0, 0, 1⟩, 0⟩).stats = ⟨1, 0, 0, 0, 0, 2⟩ ∧
    (⟨1, 0, 0, 0, 0, 2⟩ : StatsCollector) ≠ ⟨1, 0, 0, 0, 0, 1⟩ := by
  constructor
  · norm_num [handleArrival, chooseIndex, chooseFrom, Server.add_request,
      StatsCollector.log_drop]
  · intro h
    exact absurd (congrArg StatsCollector.arrival_counter h) (by norm_num)

/-- Claim C10 (amended): processing a dropped arrival leaves the
balancer and every server untouched and pushes no Departure; in the
statistics exactly the dropped counter and the request-id counter
advance (by one each); the clock is unchanged and exactly two stream
draws are consumed (inter-arrival interval and server selection). -/
theorem claim_C10_drop_frame (cfg : SimulationConfig) (rng : Nat → ℚ)
    (ev : Event) (st : SimState)
    (hdrop : ((st.lb.servers.getD
        (chooseIndex st.lb.probabilities (rng (st.rngIdx + 1))) default).add_request
        ⟨st.stats.arrival_counter, ev.time, none, none⟩).1 = false) :
    (handleArrival cfg rng ev st).lb = st.lb ∧
    (handleArrival cfg rng ev st).stats.dropped_requests =
      st.stats.dropped_requests + 1 ∧
    (handleArrival cfg rng ev st).stats.arrival_counter =
      st.stats.arrival_counter + 1 ∧
    (handleArrival cfg rng ev st).stats.served_requests =
      st.stats.served_requests ∧
    (handleArrival cfg rng ev st).stats.total_wait_time =
      st.stats.total_wait_time ∧
    (handleArrival cfg rng ev st).stats.total_service_time =
      st.stats.total_service_time ∧
    (handleArrival cfg rng ev st).stats.last_departure_time =
      st.stats.last_departure_time ∧
    (handleArrival cfg rng ev st).eventQueue.countP isDep =
      st.eventQueue.countP isDep ∧
    (handleArrival cfg rng ev st).clock = st.clock ∧
    (handleArrival cfg rng ev st).rngIdx = st.rngIdx + 2 := by
  set idx := chooseIndex st.lb.probabilities (rng (st.rngIdx + 1)) with hidxdef
  set server := st.lb.servers.getD idx default with hsrvdef
  have hb : server.is_busy = true := by
    cases hbb : server.is_busy
    · rw [add_request_idle server _ hbb] at hdrop
      simp at hdrop
    · rfl
  have hfull : ¬ ((server.queue.length : Int) < server.max_queue_size) := by
    intro hroom
    rw [add_request_queued server _ hb hroom] at hdrop
    simp at hdrop
  rw [handleArrival_drop_eq cfg rng ev st idx server hidxdef hsrvdef hb hfull]
  simp only []
  have hsetid : st.lb.servers.set idx server = st.lb.servers := by
    rw [hsrvdef]
    exact set_getD_self default st.lb.servers idx
  rw [hsetid]
  refine ⟨?_, ?_, ?_, ?_, ?_, ?_, ?_, ?_, ?_, ?_⟩ <;>
    first
      | exact countP_ite_cons _ _ _ (by simp [isDep])
      | trivial

/-- Witness for the amended C10 at a concrete saturated server. -/
theorem claim_C10_witness :
    (((⟨0, [], ⟨[⟨0, 1, 0, true, [], some ⟨0, 0, some 0, some 1⟩⟩], [1]⟩,
        ⟨0, 0, 0, 0, 0, 1⟩, 0⟩ : SimState).lb.servers.getD
        (chooseIndex [1] ((fun _ => (1 : ℚ)) 1)) default).add_request
        ⟨1, 0, none, none⟩).1 = false ∧
    (handleArrival ⟨10, 1, [1], 1, [0], [1]⟩ (fun _ => 1)
        ⟨0, EventType.ARRIVAL, none, -1⟩
        ⟨0, [], ⟨[⟨0, 1, 0, true, [], some ⟨0, 0, some 0, some 1⟩⟩], [1]⟩,
          ⟨0, 0, 0, 0, 0, 1⟩, 0⟩).lb =
      (⟨0, [], ⟨[⟨0, 1, 0, true, [], some ⟨0, 0, some 0, some 1⟩⟩], [1]⟩,
        ⟨0, 0, 0, 0, 0, 1⟩, 0⟩ : SimState).lb ∧
    (handleArrival ⟨10, 1, [1], 1, [0], [1]⟩ (fun _ => 1)
        ⟨0, EventType.ARRIVAL, none, -1⟩
        ⟨0, [], ⟨[⟨0, 1, 0, true, [], some ⟨0, 0, some 0, some 1⟩⟩], [1]⟩,
          ⟨0, 0, 0, 0, 0, 1⟩, 0⟩).stats.dropped_requests = 0 + 1 := by
  have hdrop : (((⟨0, [], ⟨[⟨0, 1, 0, true, [],
      some ⟨0, 0, some 0, some 1⟩⟩], [1]⟩,
      ⟨0, 0, 0, 0, 0, 1⟩, 0⟩ : SimState).lb.servers.getD
      (chooseIndex [1] ((fun _ => (1 : ℚ)) 1)) default).add_request
      ⟨1, 0, none, none⟩).1 = false := by
    norm_num [chooseIndex, chooseFrom, Server.add_request]
  have h := claim_C10_drop_frame ⟨10, 1, [1], 1, [0], [1]⟩ (fun _ => 1)
    ⟨0, EventType.ARRIVAL, none, -1⟩
    ⟨0, [], ⟨[⟨0, 1, 0, true, [], some ⟨0, 0, some 0, some 1⟩⟩], [1]⟩,
      ⟨0, 0, 0, 0, 0, 1⟩, 0⟩ hdrop
  exact ⟨hdrop, h.1, h.2.1⟩

end QueueNet
